import Mathlib

/-!
Verification of the learning-record store of `scripts/learningManager.py`
and the dashboard aggregator of `scripts/learningUiServer.py`.

Documents are modelled as lists of characters; a line is a `List Char` and a
document is a `List (List Char)`.  Python string primitives (`strip`,
`rstrip`, `splitlines`, universal-newline text reading, `lower`,
`re`-matching of the two line grammars) are given executable models below,
and the manager's functions are translated over them.  Recursions that walk
an index range use an explicit fuel argument equal to the size of the range,
so every definition reduces inside the kernel.
-/

set_option maxRecDepth 4000

/-- Characters of a Lean string literal, used to write document lines. -/
def str (s : String) : List Char := s.data

/-- Whitespace for Python `str.strip()` / `str.rstrip()` (the Unicode
whitespace set recognised by CPython). -/
def pyIsSpace (c : Char) : Bool :=
  c ∈ [' ', '\t', '\n', '\r', '\x0b', '\x0c',
       '\x1c', '\x1d', '\x1e', '\x1f', '\x85', '\xa0',
       '\u1680', '\u2000', '\u2001', '\u2002', '\u2003', '\u2004',
       '\u2005', '\u2006', '\u2007', '\u2008', '\u2009', '\u200a',
       '\u2028', '\u2029', '\u202f', '\u205f', '\u3000']

/-- Drop the longest suffix whose characters satisfy `p`. -/
def dropTrailing (p : Char → Bool) (l : List Char) : List Char :=
  ((l.reverse.dropWhile p).reverse)

/-- Python `str.strip()`: remove leading and trailing whitespace. -/
def pyStrip (l : List Char) : List Char :=
  dropTrailing pyIsSpace (l.dropWhile pyIsSpace)

/-- Python `str.rstrip()`: remove trailing whitespace. -/
def pyRStrip (l : List Char) : List Char :=
  dropTrailing pyIsSpace l

/-- Line boundaries recognised by Python `str.splitlines` after universal
newline translation has already replaced `\r\n` and `\r` by `\n`. -/
def isLineBreak (c : Char) : Bool :=
  c ∈ ['\n', '\x0b', '\x0c', '\x1c', '\x1d', '\x1e', '\x85', '\u2028', '\u2029']

/-- Universal-newline translation performed by `Path.read_text`:
`\r\n` and lone `\r` both become `\n`. -/
def univNewlines : List Char → List Char
  | [] => []
  | '\r' :: '\n' :: cs => '\n' :: univNewlines cs
  | '\r' :: cs => '\n' :: univNewlines cs
  | c :: cs => c :: univNewlines cs

/-- Worker for `pySplitLines`: `acc` is the line being accumulated. -/
def splitLinesAux : List Char → List Char → List (List Char)
  | [], acc => [acc]
  | c :: cs, acc =>
    if isLineBreak c then
      acc :: (if cs.isEmpty then [] else splitLinesAux cs [])
    else
      splitLinesAux cs (acc ++ [c])

/-- Python `str.splitlines()`: split at line boundaries, a trailing boundary
produces no empty final line, and the empty string has no lines. -/
def pySplitLines (s : List Char) : List (List Char) :=
  match s with
  | [] => []
  | _ => splitLinesAux s []

/-- Python `"\n".join(lines)`. -/
def joinNL : List (List Char) → List Char
  | [] => []
  | [l] => l
  | l :: ls => l ++ '\n' :: joinNL ls

/-- `load_lines`: `path.read_text(encoding="utf-8").splitlines()`; the text
layer applies universal-newline translation first.  (The missing-file check
lives in the filesystem model below.) -/
def load_lines (content : List Char) : List (List Char) :=
  pySplitLines (univNewlines content)

/-- `save_lines` file content: `"\n".join(lines).rstrip() + "\n"`. -/
def save_string (lines : List (List Char)) : List Char :=
  pyRStrip (joinNL lines) ++ ['\n']

example : pySplitLines (str "a\nb") = [str "a", str "b"] := by decide
example : pySplitLines (str "a\n") = [str "a"] := by decide
example : pySplitLines (str "\n") = [[]] := by decide
example : pySplitLines [] = [] := by decide
example : pySplitLines (str "a\n\n") = [str "a", []] := by decide
example : load_lines (str "a\r\nb\rc") = [str "a", str "b", str "c"] := by decide
example : save_string [str "a", str "b  ", []] = str "a\nb\n" := by decide
example : pyStrip (str "  a b\t") = str "a b" := by decide


/-- `lines[i]` with Python's bounds already checked by callers; out of range
reads give the empty line. -/
def getLineD (lines : List (List Char)) (i : Nat) : List Char :=
  lines.getD i []

/-- `line.startswith(target)`. -/
def hasPrefixB (target line : List Char) : Bool :=
  target.isPrefixOf line

/-- Python regex `$` preceded by `.*`: matches `s` entirely when `s` has no
newline, or all but a single trailing newline.  Returns the matched value. -/
def dotStarEnd (s : List Char) : Option (List Char) :=
  if '\n' ∉ s then some s
  else if s.getLast? = some '\n' ∧ '\n' ∉ s.dropLast then some s.dropLast
  else none

/-- `ENTRY_HEADER_RE = ^- \[(?P<ts>[^\]]+)\] (?P<title>.+)$`: returns the
`ts` and `title` groups.  The `[^\]]+` group is forced to stop at the first
`]`, and `.+` requires a nonempty newline-free title. -/
def headerMatch (line : List Char) : Option (List Char × List Char) :=
  match line with
  | '-' :: ' ' :: '[' :: rest =>
    let ts := rest.takeWhile (fun c => c ≠ ']')
    match rest.dropWhile (fun c => c ≠ ']') with
    | ']' :: ' ' :: rest2 =>
      if ts.isEmpty then none
      else
        match dotStarEnd rest2 with
        | some title => if title.isEmpty then none else some (ts, title)
        | none => none
    | _ => none
  | _ => none

/-- Truth value of `ENTRY_HEADER_RE.match(line)`. -/
def isHeaderB (line : List Char) : Bool :=
  (headerMatch line).isSome

/-- `[A-Za-z0-9_]` (ASCII, as in the Python character class). -/
def isWordChar (c : Char) : Bool :=
  c.isAlphanum || c = '_'

/-- `KV_RE = ^  - (?P<key>[A-Za-z0-9_]+): (?P<value>.*)$`: returns the
`key` and `value` groups. -/
def kvMatch (line : List Char) : Option (List Char × List Char) :=
  match line with
  | ' ' :: ' ' :: '-' :: ' ' :: rest =>
    let key := rest.takeWhile isWordChar
    match rest.dropWhile isWordChar with
    | ':' :: ' ' :: rest2 =>
      if key.isEmpty then none
      else
        match dotStarEnd rest2 with
        | some value => some (key, value)
        | none => none
    | _ => none
  | _ => none

/-- Value of the field line `line` when it carries exactly the key `key`. -/
def kvFor (key line : List Char) : Option (List Char) :=
  match kvMatch line with
  | some (k, v) => if k = key then some v else none
  | none => none

/-- The prefix `"  - <key>: "` used by `update_or_insert_kv`. -/
def kvTarget (key : List Char) : List Char :=
  str "  - " ++ key ++ str ": "

example : headerMatch (str "- [2024-01-01] My title") =
    some (str "2024-01-01", str "My title") := by decide
example : headerMatch (str "- [a] b] c") = some (str "a", str "b] c") := by decide
example : headerMatch (str "- [] x") = none := by decide
example : headerMatch (str "- [a] ") = none := by decide
example : headerMatch (str "  - status: x") = none := by decide
example : kvMatch (str "  - status: approved") =
    some (str "status", str "approved") := by decide
example : kvMatch (str "  - review_note9: ") = some (str "review_note9", []) := by decide
example : kvMatch (str "  - ab : x") = none := by decide
example : kvMatch (str "- [t] x") = none := by decide

/-- The five recognised attributes of an `Entry`, as scanned by the parser
loop of `parse_entries`. -/
structure Fields where
  fingerprint : Option (List Char)
  source : Option (List Char)
  status : Option (List Char)
  details : Option (List Char)
  review_note : Option (List Char)
deriving DecidableEq

/-- The fields record with every attribute absent. -/
def Fields.empty : Fields := ⟨none, none, none, none, none⟩

/-- One iteration of the field-scanning loop of `parse_entries`: a matching
field line overwrites the recognised attribute it names (last write wins),
any other line leaves the record unchanged. -/
def applyKv (acc : Fields) (line : List Char) : Fields :=
  match kvMatch line with
  | none => acc
  | some (key, value) =>
    if key = str "fingerprint" then { acc with fingerprint := some value }
    else if key = str "source" then { acc with source := some value }
    else if key = str "status" then { acc with status := some value }
    else if key = str "details" then { acc with details := some value }
    else if key = str "reviewNote" then { acc with review_note := some value }
    else acc

/-- Field scan over `fuel` lines starting at index `i`. -/
def scanFieldsF (lines : List (List Char)) : Nat → Nat → Fields → Fields
  | 0, _, acc => acc
  | n+1, i, acc => scanFieldsF lines n (i+1) (applyKv acc (getLineD lines i))

/-- The field record obtained by scanning lines `lo ≤ k < hi`, as the loop
`for k in range(i + 1, j)` of `parse_entries` does. -/
def scanFields (lines : List (List Char)) (lo hi : Nat) : Fields :=
  scanFieldsF lines (hi - lo) lo Fields.empty

/-- Value of the last field line carrying `key` among `fuel` lines starting
at `i` (used to characterise the last-write-wins scan). -/
def lastKvF (lines : List (List Char)) (key : List Char) : Nat → Nat → Option (List Char)
  | 0, _ => none
  | n+1, i => (lastKvF lines key n (i+1)).or (kvFor key (getLineD lines i))

/-- Value of the last field line carrying `key` with index `lo ≤ k < hi`. -/
def lastKvIn (lines : List (List Char)) (lo hi : Nat) (key : List Char) : Option (List Char) :=
  lastKvF lines key (hi - lo) lo

/-- Inner scan of `parse_entries`: first index `≥ i` holding a header line,
or `lines.length`; `fuel` bounds the walk. -/
def findNextHeaderF (lines : List (List Char)) : Nat → Nat → Nat
  | 0, i => i
  | n+1, i =>
    if i < lines.length then
      if isHeaderB (getLineD lines i) then i else findNextHeaderF lines n (i+1)
    else i

/-- The `while j < len(lines) and not ENTRY_HEADER_RE.match(lines[j])` scan. -/
def findNextHeader (lines : List (List Char)) (j : Nat) : Nat :=
  findNextHeaderF lines (lines.length - j) j

/-- A parsed record: its span `[header_index, end_index)` plus the header
groups and the five recognised attributes. -/
structure Entry where
  header_index : Nat
  end_index : Nat
  timestamp : List Char
  title : List Char
  fingerprint : Option (List Char)
  source : Option (List Char)
  status : Option (List Char)
  details : Option (List Char)
  review_note : Option (List Char)
deriving DecidableEq

/-- The record assembled for a header at `h` whose span ends at `j`. -/
def mkEntry (lines : List (List Char)) (h j : Nat) : Entry :=
  let ht := (headerMatch (getLineD lines h)).getD ([], [])
  let f := scanFields lines (h+1) j
  { header_index := h, end_index := j, timestamp := ht.1, title := ht.2,
    fingerprint := f.fingerprint, source := f.source, status := f.status,
    details := f.details, review_note := f.review_note }

/-- Outer scan of `parse_entries` from index `i`, with `fuel ≥ length - i`. -/
def parseFromF (lines : List (List Char)) : Nat → Nat → List Entry
  | 0, _ => []
  | n+1, i =>
    if i < lines.length then
      if isHeaderB (getLineD lines i) then
        let j := findNextHeader lines (i+1)
        mkEntry lines i j :: parseFromF lines n j
      else
        parseFromF lines n (i+1)
    else []

/-- `parse_entries(lines)`. -/
def parse_entries (lines : List (List Char)) : List Entry :=
  parseFromF lines lines.length 0

example :
    parse_entries [str "intro", str "- [t1] First", str "  - fingerprint: abc",
      str "  - status: pending", str "- [t2] Second", str "  - status: approved",
      str "  - status: rejected"] =
    [{ header_index := 1, end_index := 4, timestamp := str "t1", title := str "First",
       fingerprint := some (str "abc"), source := none, status := some (str "pending"),
       details := none, review_note := none },
     { header_index := 4, end_index := 7, timestamp := str "t2", title := str "Second",
       fingerprint := none, source := none, status := some (str "rejected"),
       details := none, review_note := none }] := by decide

example : parse_entries [] = [] := by decide
example : parse_entries [str "- [t] Only"] =
    [{ header_index := 0, end_index := 1, timestamp := str "t", title := str "Only",
       fingerprint := none, source := none, status := none,
       details := none, review_note := none }] := by decide

/-- The error taxonomy: one constructor per `raise` site reached by the
modelled operations. -/
inductive Err where
  | missingFile (path : List (List Char))
  | unsupportedSource (source : List Char)
  | fingerprintNotFound (fingerprint : List Char)
  | invalidState (status : Option (List Char))
  | invalidSlug
  | unsupportedTarget (target : List Char)
  | duplicateSkill (path : List (List Char))
deriving DecidableEq

deriving instance DecidableEq for Except

/-- `find_entry_by_fingerprint`: first entry (in document order) whose
fingerprint equals the argument; `None == fp` is false in Python, so an
absent fingerprint never matches. -/
def find_entry_by_fingerprint : List Entry → List Char → Except Err Entry
  | [], fp => .error (.fingerprintNotFound fp)
  | e :: es, fp =>
    if e.fingerprint = some fp then .ok e else find_entry_by_fingerprint es fp

/-- First index `i ≤ k < i + fuel` whose line starts with `target`. -/
def findKvF (lines : List (List Char)) (target : List Char) : Nat → Nat → Option Nat
  | 0, _ => none
  | n+1, i =>
    if hasPrefixB target (getLineD lines i) then some i
    else findKvF lines target n (i+1)

/-- First index `lo ≤ k < hi` whose line starts with `target`. -/
def findKvIndex (lines : List (List Char)) (target : List Char) (lo hi : Nat) : Option Nat :=
  findKvF lines target (hi - lo) lo

/-- `update_or_insert_kv`: replace the first line of the record's span that
starts with `"  - <key>: "`, or insert a fresh field line at the span's end
boundary (Python `list.insert` clamps an out-of-range index, as
`take`/`drop` do). -/
def update_or_insert_kv (lines : List (List Char)) (entry : Entry)
    (key value : List Char) : List (List Char) :=
  let target := kvTarget key
  match findKvIndex lines target (entry.header_index + 1) entry.end_index with
  | some i => lines.set i (target ++ value)
  | none => lines.take entry.end_index ++ (target ++ value) :: lines.drop entry.end_index

/-- A repository-relative path, as a list of components. -/
abbrev DiskPath := List (List Char)

/-- The filesystem picture seen by the manager: file contents plus the set
of directories that exist. -/
structure FS where
  files : List (DiskPath × List Char)
  dirs : List DiskPath
deriving DecidableEq

/-- Association-list lookup for file contents (newest write first). -/
def lookupFile : List (DiskPath × List Char) → DiskPath → Option (List Char)
  | [], _ => none
  | (q, c) :: rest, p => if q = p then some c else lookupFile rest p

/-- Content of the file at `p`, if it exists. -/
def readFile (fs : FS) (p : DiskPath) : Option (List Char) :=
  lookupFile fs.files p

/-- `Path.exists()` for a file. -/
def fileExists (fs : FS) (p : DiskPath) : Bool :=
  (readFile fs p).isSome

/-- `Path.write_text`: the newest content shadows older ones. -/
def writeFile (fs : FS) (p : DiskPath) (content : List Char) : FS :=
  { fs with files := (p, content) :: fs.files }

/-- Create one directory if missing (`exist_ok=True`). -/
def addDir (fs : FS) (d : DiskPath) : FS :=
  if d ∈ fs.dirs then fs else { fs with dirs := d :: fs.dirs }

/-- `mkdir(parents=True, exist_ok=True)`: create every missing ancestor. -/
def mkdirParents (fs : FS) (p : DiskPath) : FS :=
  (List.range p.length).foldl (fun s n => addDir s (p.take (n+1))) fs

/-- Render a repository-relative path with `/` separators, as
`destination_file.relative_to(repo_dir)` prints. -/
def renderPath : DiskPath → List Char
  | [] => []
  | [c] => c
  | c :: rest => c ++ '/' :: renderPath rest

/-- `learning/manual/entries.md`. -/
def manualEntriesPath : DiskPath := [str "learning", str "manual", str "entries.md"]

/-- `learning/generated/entries.md`. -/
def generatedEntriesPath : DiskPath := [str "learning", str "generated", str "entries.md"]

/-- `entries_path`: document file for a source selector. -/
def entries_path (source : List Char) : Except Err DiskPath :=
  if source = str "manual" then .ok manualEntriesPath
  else if source = str "generated" then .ok generatedEntriesPath
  else .error (.unsupportedSource source)

/-- `skill_dir`: artifact directory for a target namespace and slug. -/
def skill_dir (target slug : List Char) : Except Err DiskPath :=
  if target = str "skills" then .ok [str "cursor", str "skills", slug]
  else if target = str "skills-cursor" then .ok [str "cursor", str "skills-cursor", slug]
  else .error (.unsupportedTarget target)

/-- `[a-zA-Z0-9-]`: the characters `safe_slug`'s regex keeps. -/
def slugKeepCode (c : Char) : Bool :=
  c.isAlphanum || c = '-'

/-- `[a-z0-9-]`: the characters kept by the specification's description of
slug normalisation (applied after lowercasing). -/
def slugKeepSpec (c : Char) : Bool :=
  c.isLower || c.isDigit || c = '-'

/-- Worker for `collapseRuns`; the flag records whether the previous
character was part of a run already replaced by a hyphen. -/
def collapseAux (p : Char → Bool) : List Char → Bool → List Char
  | [], _ => []
  | c :: cs, inRun =>
    if p c then c :: collapseAux p cs false
    else if inRun then collapseAux p cs true
    else '-' :: collapseAux p cs true

/-- `re.sub(r"[^…]+", "-", s)`: replace every maximal run of characters not
satisfying `p` by a single hyphen. -/
def collapseRuns (p : Char → Bool) (l : List Char) : List Char :=
  collapseAux p l false

/-- The hyphen character test used by `.strip("-")`. -/
def isHyphen (c : Char) : Bool := c = '-'

/-- Python `.strip("-")`: remove hyphens from both ends. -/
def stripHyphens (l : List Char) : List Char :=
  (dropTrailing isHyphen l).dropWhile isHyphen

/-- `safe_slug`:
`re.sub(r"[^a-zA-Z0-9-]+", "-", value.strip()).strip("-").lower()`, failing
when the result is empty.  `Char.toLower` models Python `str.lower` here:
the collapsed string only contains ASCII alphanumerics and hyphens, on which
the two agree. -/
def safe_slug (value : List Char) : Except Err (List Char) :=
  let slug := (stripHyphens (collapseRuns slugKeepCode (pyStrip value))).map Char.toLower
  if slug.isEmpty then .error .invalidSlug else .ok slug

/-- Modelled from the specification's wording of slug normalisation:
lowercase, collapse every maximal run of characters outside `[a-z0-9-]` into
one hyphen, trim hyphens at both ends, and fail exactly when the result is
empty. -/
def slug_spec (value : List Char) : Except Err (List Char) :=
  let slug := stripHyphens (collapseRuns slugKeepSpec (value.map Char.toLower))
  if slug.isEmpty then .error .invalidSlug else .ok slug

/-- The body written by `create_skill_file`. -/
def create_skill_file_body (slug description title details fingerprint : List Char) : List Char :=
  str "---\nname: " ++ slug ++
  str "\ndescription: " ++ description ++
  str "\n---\n\n# " ++ title ++
  str "\n\nUse this skill when this pattern applies in daily work.\n\n## Guidance\n\n- Keep the implementation concise and consistent with project conventions.\n- Apply the pattern intentionally; avoid using it where it does not fit.\n- Add examples in this skill over time as usage matures.\n\n## Source\n\n- learning fingerprint: \x60" ++
  fingerprint ++
  str "\x60\n- original details: " ++ details ++ str "\n"

/-- `cmd_review(repo_dir, source, fingerprint, status, reason)`, returning
the filesystem after the operation together with its outcome. -/
def cmd_review (fs : FS) (source fingerprint status reason : List Char) :
    FS × Except Err Unit :=
  match entries_path source with
  | .error e => (fs, .error e)
  | .ok path =>
    match readFile fs path with
    | none => (fs, .error (.missingFile path))
    | some content =>
      let lines := load_lines content
      match find_entry_by_fingerprint (parse_entries lines) fingerprint with
      | .error e => (fs, .error e)
      | .ok entry =>
        let lines1 := update_or_insert_kv lines entry (str "status") status
        let lines2 :=
          if pyStrip reason ≠ [] then
            update_or_insert_kv lines1 entry (str "reviewNote") (pyStrip reason)
          else lines1
        (writeFile fs path (save_string lines2), .ok ())

/-- `cmd_promote(repo_dir, source, fingerprint, slug, description, target)`:
status gate, slug normalisation, namespace resolution, `mkdir -p`,
duplicate-artifact check, artifact write, then reload/re-parse the document
and mark the record promoted. -/
def cmd_promote (fs : FS) (source fingerprint slug description target : List Char) :
    FS × Except Err DiskPath :=
  match entries_path source with
  | .error e => (fs, .error e)
  | .ok entriesFile =>
  match readFile fs entriesFile with
  | none => (fs, .error (.missingFile entriesFile))
  | some content =>
  match find_entry_by_fingerprint (parse_entries (load_lines content)) fingerprint with
  | .error e => (fs, .error e)
  | .ok entry =>
  if entry.status = some (str "approved") ∨ entry.status = some (str "promoted") then
    match safe_slug slug with
    | .error e => (fs, .error e)
    | .ok normalizedSlug =>
    match skill_dir target normalizedSlug with
    | .error e => (fs, .error e)
    | .ok destinationDir =>
    let destinationFile := destinationDir ++ [str "SKILL.md"]
    let fs1 := mkdirParents fs destinationDir
    if fileExists fs1 destinationFile then
      (fs1, .error (.duplicateSkill destinationFile))
    else
      let finalDescription :=
        if pyStrip description = [] then str "Promoted learning: " ++ entry.title
        else pyStrip description
      let fs2 := writeFile fs1 destinationFile
        (create_skill_file_body normalizedSlug finalDescription entry.title
          (entry.details.getD []) fingerprint)
      match readFile fs2 entriesFile with
      | none => (fs2, .error (.missingFile entriesFile))
      | some content2 =>
      let lines2 := load_lines content2
      match find_entry_by_fingerprint (parse_entries lines2) fingerprint with
      | .error e => (fs2, .error e)
      | .ok entry2 =>
        let lines3 := update_or_insert_kv lines2 entry2 (str "status") (str "promoted")
        let lines4 := update_or_insert_kv lines3 entry2 (str "reviewNote")
          (str "Promoted to " ++ renderPath destinationFile)
        (writeFile fs2 entriesFile (save_string lines4), .ok destinationFile)
  else (fs, .error (.invalidState entry.status))

/-- A record tagged with the document collection it came from. -/
structure Tagged where
  src : List Char
  entry : Entry
deriving DecidableEq

/-- The JSON projection of a tagged record used by the dashboard. -/
structure SerializedEntry where
  source : List Char
  timestamp : List Char
  title : List Char
  fingerprint : Option (List Char)
  status : Option (List Char)
  details : Option (List Char)
  reviewNote : Option (List Char)
deriving DecidableEq

/-- The four counters of the dashboard. -/
structure DashCounts where
  pending : Nat
  approved : Nat
  rejected : Nat
  promoted : Nat
deriving DecidableEq

/-- The dashboard payload. -/
structure Dashboard where
  counts : DashCounts
  pending : List SerializedEntry
  all : List SerializedEntry
deriving DecidableEq

/-- `(x["entry"].status or "").strip()`. -/
def trimmedStatus (x : Tagged) : List Char :=
  pyStrip (x.entry.status.getD [])

/-- One bucket comprehension of `build_dashboard`. -/
def statusBucket (xs : List Tagged) (s : List Char) : List Tagged :=
  xs.filter (fun x => decide (trimmedStatus x = s))

/-- The `serialize` helper of `build_dashboard`. -/
def serializeEntry (x : Tagged) : SerializedEntry :=
  { source := x.src, timestamp := x.entry.timestamp, title := x.entry.title,
    fingerprint := x.entry.fingerprint, status := x.entry.status,
    details := x.entry.details, reviewNote := x.entry.review_note }

/-- `all_entries`: manual records then generated records, each tagged. -/
def taggedAll (manualContent generatedContent : List Char) : List Tagged :=
  (parse_entries (load_lines manualContent)).map (fun e => ⟨str "manual", e⟩) ++
  (parse_entries (load_lines generatedContent)).map (fun e => ⟨str "generated", e⟩)

/-- `build_dashboard(repo_dir, limit)` of the UI server. -/
def build_dashboard (fs : FS) (limit : Nat) : Except Err Dashboard :=
  match readFile fs manualEntriesPath with
  | none => .error (.missingFile manualEntriesPath)
  | some mc =>
  match readFile fs generatedEntriesPath with
  | none => .error (.missingFile generatedEntriesPath)
  | some gc =>
    let all := taggedAll mc gc
    let pending := statusBucket all (str "pending")
    let approved := statusBucket all (str "approved")
    let rejected := statusBucket all (str "rejected")
    let promoted := statusBucket all (str "promoted")
    .ok { counts := { pending := pending.length, approved := approved.length,
                      rejected := rejected.length, promoted := promoted.length },
          pending := (pending.take limit).map serializeEntry,
          all := all.map serializeEntry }

example : safe_slug (str "My Pattern") = .ok (str "my-pattern") := by decide
example : safe_slug (str "  --Weird__Name!!x ") = .ok (str "weird-name-x") := by decide
example : safe_slug (str " _ ") = .error .invalidSlug := by decide
example : slug_spec (str "My Pattern") = .ok (str "my-pattern") := by decide

/-- Record with a duplicated fingerprint, first in document order. -/
def entA : Entry :=
  { header_index := 0, end_index := 2, timestamp := str "t1", title := str "A",
    fingerprint := some (str "dup"), source := none, status := some (str "pending"),
    details := none, review_note := none }

/-- Record with the same fingerprint as `entA`, later in document order. -/
def entB : Entry :=
  { header_index := 2, end_index := 4, timestamp := str "t2", title := str "B",
    fingerprint := some (str "dup"), source := none, status := some (str "approved"),
    details := none, review_note := none }

/-- Lines of a one-record document with no status field line. -/
def exLines : List (List Char) := [str "- [t1] First", str "  - fingerprint: abc"]

/-- The record spanning all of `exLines`. -/
def exEntry : Entry :=
  { header_index := 0, end_index := 2, timestamp := str "t1", title := str "First",
    fingerprint := some (str "abc"), source := none, status := none,
    details := none, review_note := none }

/-- A pending record whose artifact nevertheless exists on disk. -/
def exDocPending : List Char :=
  str "- [t1] First\n  - fingerprint: abc\n  - status: pending\n"

/-- An approved record, identical document otherwise. -/
def exDocApproved : List Char :=
  str "- [t1] First\n  - fingerprint: abc\n  - status: approved\n"

/-- Artifact directory of the normalised slug `my-skill`. -/
def exSkillDir : DiskPath := [str "cursor", str "skills", str "my-skill"]

/-- Filesystem with a pending record and no artifact. -/
def exFSPending : FS :=
  { files := [(manualEntriesPath, exDocPending)], dirs := [] }

/-- Filesystem in which the artifact of the normalised slug `my-skill`
already exists with its directory chain, and the document holds an approved
record. -/
def exFSDuplicate : FS :=
  { files := [(manualEntriesPath, exDocApproved),
              (exSkillDir ++ [str "SKILL.md"], str "existing artifact")],
    dirs := [[str "cursor"], [str "cursor", str "skills"], exSkillDir] }

/-- Filesystem in which the artifact of the normalised slug exists but the
record's status has been reviewed back to `pending`. -/
def exFSDuplicatePending : FS :=
  { files := [(manualEntriesPath, exDocPending),
              (exSkillDir ++ [str "SKILL.md"], str "existing artifact")],
    dirs := [[str "cursor"], [str "cursor", str "skills"], exSkillDir] }

/-- The union of the four status buckets, as a filter. -/
def anyCanonicalStatus (x : Tagged) : Bool :=
  decide (trimmedStatus x = str "pending") || decide (trimmedStatus x = str "approved") ||
  decide (trimmedStatus x = str "rejected") || decide (trimmedStatus x = str "promoted")

/-- A manual document: one pending, one approved, one non-canonical record. -/
def exManualDoc : List Char :=
  str "- [t1] A\n  - status: pending\n- [t2] B\n  - status: approved\n- [t3] C\n  - status: weird\n"

/-- A generated document: one rejected, one promoted, one status-less record. -/
def exGeneratedDoc : List Char :=
  str "- [t4] D\n  - status: rejected\n- [t5] E\n  - status: promoted\n- [t6] F\n"

/-- Filesystem holding both dashboard documents. -/
def exFSDash : FS :=
  { files := [(manualEntriesPath, exManualDoc), (generatedEntriesPath, exGeneratedDoc)],
    dirs := [] }

/-- The dashboard the model builds for `exFSDash` with limit 2. -/
def exDash : Dashboard :=
  (build_dashboard exFSDash 2).toOption.getD ⟨⟨0, 0, 0, 0⟩, [], []⟩

/-- A two-record document with an ignored preamble line. -/
def exLines2 : List (List Char) :=
  [str "intro", str "- [t1] A", str "  - status: pending", str "- [t2] B"]

/-- First record of `exLines2`. -/
def exEnt20 : Entry :=
  { header_index := 1, end_index := 3, timestamp := str "t1", title := str "A",
    fingerprint := none, source := none, status := some (str "pending"),
    details := none, review_note := none }

/-- Second record of `exLines2`. -/
def exEnt21 : Entry :=
  { header_index := 3, end_index := 4, timestamp := str "t2", title := str "B",
    fingerprint := none, source := none, status := none,
    details := none, review_note := none }

/-- The five keys the parser recognises. -/
def recognizedKeys : List (List Char) :=
  [str "fingerprint", str "source", str "status", str "details", str "reviewNote"]

/-- Look up one of the five recognised attributes of a fields record. -/
def Fields.get (f : Fields) (key : List Char) : Option (List Char) :=
  if key = str "fingerprint" then f.fingerprint
  else if key = str "source" then f.source
  else if key = str "status" then f.status
  else if key = str "details" then f.details
  else if key = str "reviewNote" then f.review_note
  else none

/-- Look up one of the five recognised attributes of a record. -/
def entryField (en : Entry) (key : List Char) : Option (List Char) :=
  if key = str "fingerprint" then en.fingerprint
  else if key = str "source" then en.source
  else if key = str "status" then en.status
  else if key = str "details" then en.details
  else if key = str "reviewNote" then en.review_note
  else none

/-- A record whose span carries two `status` field lines. -/
def exDup : List (List Char) :=
  [str "- [t] T", str "  - status: a", str "  - status: b"]

/-- The record parsed from `exDup`: last write wins, so its status is `b`. -/
def exDupEnt : Entry :=
  { header_index := 0, end_index := 3, timestamp := str "t", title := str "T",
    fingerprint := none, source := none, status := some (str "b"),
    details := none, review_note := none }

/-! ### Theorems -/


/-- C6: `find_entry_by_fingerprint` returns the first record in document
order whose fingerprint equals the argument — when some record matches, the
result is the earliest matching record and every earlier record does not
match; when no record matches, it fails with the not-found error. -/
theorem find_entry_first_match (es : List Entry) (fp : List Char) :
    ((∃ e ∈ es, e.fingerprint = some fp) →
      ∃ n, ∃ hn : n < es.length,
        find_entry_by_fingerprint es fp = .ok (es.get ⟨n, hn⟩) ∧
        (es.get ⟨n, hn⟩).fingerprint = some fp ∧
        ∀ m, ∀ hm : m < es.length, m < n → (es.get ⟨m, hm⟩).fingerprint ≠ some fp) ∧
    ((∀ e ∈ es, e.fingerprint ≠ some fp) →
      find_entry_by_fingerprint es fp = .error (.fingerprintNotFound fp)) := by
  induction es with
  | nil =>
    refine ⟨?_, fun _ => rfl⟩
    rintro ⟨e, he, -⟩
    cases he
  | cons a as ih =>
    refine ⟨?_, ?_⟩
    · rintro ⟨e, he, hfp⟩
      by_cases ha : a.fingerprint = some fp
      · refine ⟨0, Nat.succ_pos _, ?_, ha, ?_⟩
        · simp [find_entry_by_fingerprint, ha]
        · intro m hm hlt
          exact absurd hlt (Nat.not_lt_zero m)
      · have hmem : ∃ e ∈ as, e.fingerprint = some fp := by
          rcases List.mem_cons.mp he with h | h
          · exact absurd (h ▸ hfp) ha
          · exact ⟨e, h, hfp⟩
        obtain ⟨n, hn, h1, h2, h3⟩ := ih.1 hmem
        refine ⟨n + 1, Nat.succ_lt_succ hn, ?_, ?_, ?_⟩
        · simpa [find_entry_by_fingerprint, ha] using h1
        · simpa using h2
        · intro m hm hlt
          cases m with
          | zero => simpa using ha
          | succ m' =>
            have hm' : m' < as.length := Nat.lt_of_succ_lt_succ hm
            simpa using h3 m' hm' (Nat.lt_of_succ_lt_succ hlt)
    · intro hnone
      have ha : a.fingerprint ≠ some fp := hnone a (List.mem_cons_self a as)
      have := ih.2 (fun e he => hnone e (List.mem_cons_of_mem a he))
      simpa [find_entry_by_fingerprint, ha] using this

/-- Witness for C6: on two records sharing the fingerprint `dup`, the lookup
returns the earlier one. -/
theorem find_entry_first_match_witness :
    ∃ n, ∃ hn : n < ([entA, entB] : List Entry).length,
      find_entry_by_fingerprint [entA, entB] (str "dup") =
        .ok (([entA, entB] : List Entry).get ⟨n, hn⟩) ∧
      (([entA, entB] : List Entry).get ⟨n, hn⟩).fingerprint = some (str "dup") ∧
      ∀ m, ∀ hm : m < ([entA, entB] : List Entry).length, m < n →
        (([entA, entB] : List Entry).get ⟨m, hm⟩).fingerprint ≠ some (str "dup") :=
  (find_entry_first_match [entA, entB] (str "dup")).1
    ⟨entA, List.mem_cons_self entA [entB], by decide⟩

/-- Unfolding equation for one step of `findKvF`. -/
theorem findKvF_succ (lines : List (List Char)) (target : List Char) (n i : Nat) :
    findKvF lines target (n+1) i =
      if hasPrefixB target (getLineD lines i) then some i
      else findKvF lines target n (i+1) := rfl

/-- The `"  - <key>: "` prefix is never empty. -/
theorem kvTarget_ne_nil (key : List Char) : kvTarget key ≠ [] := by
  simp [kvTarget, str]

/-- A line that starts with a field prefix really is a stored line, so its
index is within the document. -/
theorem lt_length_of_kvTarget_prefix (lines : List (List Char)) (key : List Char)
    (i : Nat) (h : hasPrefixB (kvTarget key) (getLineD lines i) = true) :
    i < lines.length := by
  by_contra hge
  rw [getLineD, List.getD_eq_default _ _ (Nat.le_of_not_lt hge)] at h
  have := List.isPrefixOf_iff_prefix.mp h
  rw [List.prefix_nil] at this
  exact kvTarget_ne_nil key this

/-- What `findKvF` returns: a returned index is the first one of the scanned
range whose line starts with the target, and a match inside the range
guarantees that some index is returned. -/
theorem findKvF_spec (lines : List (List Char)) (target : List Char) :
    ∀ n i,
      (∀ f, findKvF lines target n i = some f →
        i ≤ f ∧ f < i + n ∧ hasPrefixB target (getLineD lines f) = true ∧
        ∀ k, i ≤ k → k < f → hasPrefixB target (getLineD lines k) = false) ∧
      ((∃ k, i ≤ k ∧ k < i + n ∧ hasPrefixB target (getLineD lines k) = true) →
        (findKvF lines target n i).isSome = true) := by
  intro n
  induction n with
  | zero =>
    intro i
    refine ⟨?_, ?_⟩
    · intro f hf
      exact absurd hf (by simp [findKvF])
    · rintro ⟨k, h1, h2, -⟩
      omega
  | succ m ih =>
    intro i
    cases hp : hasPrefixB target (getLineD lines i) with
    | true =>
      refine ⟨?_, ?_⟩
      · intro f hf
        rw [findKvF_succ, if_pos hp] at hf
        cases hf
        exact ⟨Nat.le_refl i, by omega, hp, fun k h1 h2 => by omega⟩
      · intro _
        rw [findKvF_succ, if_pos hp]
        rfl
    | false =>
      refine ⟨?_, ?_⟩
      · intro f hf
        rw [findKvF_succ, if_neg (by rw [hp]; exact Bool.false_ne_true)] at hf
        obtain ⟨h1, h2, h3, h4⟩ := (ih (i+1)).1 f hf
        refine ⟨by omega, by omega, h3, ?_⟩
        intro k hk1 hk2
        rcases Nat.eq_or_lt_of_le hk1 with rfl | hk
        · exact hp
        · exact h4 k hk hk2
      · rintro ⟨k, h1, h2, h3⟩
        have hki : k ≠ i := by
          intro h
          rw [h, hp] at h3
          exact Bool.false_ne_true h3
        rw [findKvF_succ, if_neg (by rw [hp]; exact Bool.false_ne_true)]
        exact (ih (i+1)).2 ⟨k, by omega, by omega, h3⟩

/-- C4: `update_or_insert_kv` either replaces exactly the first line of the
record's span that starts with the field prefix — leaving every other line
and the total line count unchanged — or, when no line of the span starts
with the prefix, inserts exactly one new field line at the span's end
boundary, growing the document by one line. -/
theorem update_or_insert_spec (lines : List (List Char)) (entry : Entry)
    (key value : List Char) :
    (∀ i, entry.header_index + 1 ≤ i → i < entry.end_index →
      hasPrefixB (kvTarget key) (getLineD lines i) = true →
      (∀ k, entry.header_index + 1 ≤ k → k < i →
        hasPrefixB (kvTarget key) (getLineD lines k) = false) →
      update_or_insert_kv lines entry key value = lines.set i (kvTarget key ++ value) ∧
      (update_or_insert_kv lines entry key value).length = lines.length ∧
      (update_or_insert_kv lines entry key value)[i]? = some (kvTarget key ++ value) ∧
      ∀ j, j ≠ i → (update_or_insert_kv lines entry key value)[j]? = lines[j]?) ∧
    ((∀ k, entry.header_index + 1 ≤ k → k < entry.end_index →
        hasPrefixB (kvTarget key) (getLineD lines k) = false) →
      update_or_insert_kv lines entry key value =
        lines.take entry.end_index ++ (kvTarget key ++ value) :: lines.drop entry.end_index ∧
      (update_or_insert_kv lines entry key value).length = lines.length + 1) := by
  refine ⟨?_, ?_⟩
  · intro i hlo hhi hpre hfirst
    have hsome : (findKvIndex lines (kvTarget key) (entry.header_index + 1) entry.end_index).isSome = true := by
      apply (findKvF_spec lines (kvTarget key) (entry.end_index - (entry.header_index + 1)) (entry.header_index + 1)).2
      exact ⟨i, hlo, by omega, hpre⟩
    obtain ⟨f, hf⟩ := Option.isSome_iff_exists.mp hsome
    obtain ⟨h1, h2, h3, h4⟩ :=
      (findKvF_spec lines (kvTarget key) (entry.end_index - (entry.header_index + 1)) (entry.header_index + 1)).1 f hf
    have hfi : f = i := by
      rcases Nat.lt_trichotomy f i with h | h | h
      · rw [hfirst f h1 h] at h3
        exact absurd h3 Bool.false_ne_true
      · exact h
      · rw [h4 i hlo h] at hpre
        exact absurd hpre Bool.false_ne_true
    subst hfi
    have heq : update_or_insert_kv lines entry key value = lines.set f (kvTarget key ++ value) := by
      simp only [update_or_insert_kv]
      rw [hf]
    have hflen : f < lines.length := lt_length_of_kvTarget_prefix lines key f hpre
    refine ⟨heq, by rw [heq]; exact List.length_set lines f _, ?_, ?_⟩
    · rw [heq]
      exact List.getElem?_set_self hflen
    · intro j hj
      rw [heq]
      exact List.getElem?_set_ne (Ne.symm hj)
  · intro hnone
    have hnores : findKvIndex lines (kvTarget key) (entry.header_index + 1) entry.end_index = none := by
      cases hres : findKvIndex lines (kvTarget key) (entry.header_index + 1) entry.end_index with
      | none => rfl
      | some f =>
        obtain ⟨h1, h2, h3, -⟩ :=
          (findKvF_spec lines (kvTarget key) (entry.end_index - (entry.header_index + 1)) (entry.header_index + 1)).1 f hres
        rw [hnone f h1 (by omega)] at h3
        exact absurd h3 Bool.false_ne_true
    have heq : update_or_insert_kv lines entry key value =
        lines.take entry.end_index ++ (kvTarget key ++ value) :: lines.drop entry.end_index := by
      simp only [update_or_insert_kv]
      rw [hnores]
    refine ⟨heq, ?_⟩
    rw [heq]
    simp only [List.length_append, List.length_take, List.length_cons, List.length_drop]
    omega

/-- Witness for C4: setting `status` on a record without a status line
inserts exactly one field line at the span's end boundary. -/
theorem update_or_insert_spec_witness :
    update_or_insert_kv exLines exEntry (str "status") (str "approved") =
      exLines.take exEntry.end_index ++
        (kvTarget (str "status") ++ str "approved") :: exLines.drop exEntry.end_index ∧
    (update_or_insert_kv exLines exEntry (str "status") (str "approved")).length =
      exLines.length + 1 :=
  (update_or_insert_spec exLines exEntry (str "status") (str "approved")).2
    (by
      intro k h1 h2
      have h2' : k < 2 := h2
      have hk : k = 1 := by
        have h1' : 1 ≤ k := h1
        omega
      subst hk
      decide)

/-- Creating a directory that already exists changes nothing. -/
theorem addDir_mem (fs : FS) (d : DiskPath) (h : d ∈ fs.dirs) : addDir fs d = fs := by
  simp [addDir, h]

/-- `mkdir(parents=True, exist_ok=True)` changes nothing when the directory
and all its ancestors already exist. -/
theorem mkdirParents_noop (fs : FS) (p : DiskPath)
    (h : ∀ n, n < p.length → p.take (n+1) ∈ fs.dirs) :
    mkdirParents fs p = fs := by
  have main : ∀ l : List Nat, (∀ n ∈ l, p.take (n+1) ∈ fs.dirs) →
      l.foldl (fun s n => addDir s (p.take (n+1))) fs = fs := by
    intro l
    induction l with
    | nil => intro _; rfl
    | cons a as ih =>
      intro hl
      rw [List.foldl_cons, addDir_mem fs _ (hl a (List.mem_cons_self a as))]
      exact ih (fun n hn => hl n (List.mem_cons_of_mem a hn))
  exact main (List.range p.length) (fun n hn => h n (List.mem_range.mp hn))

/-- C2: when the located record's status is neither `approved` nor
`promoted` (so also when it is `pending`, `rejected`, absent or arbitrary
text), `cmd_promote` fails with the invalid-state error and the filesystem —
artifact files and document alike — is left untouched. -/
theorem promote_invalid_state (fs : FS)
    (source fingerprint slug description target : List Char)
    (epath : DiskPath) (content : List Char) (entry : Entry)
    (hsrc : entries_path source = .ok epath)
    (hread : readFile fs epath = some content)
    (hfind : find_entry_by_fingerprint (parse_entries (load_lines content)) fingerprint = .ok entry)
    (hs1 : entry.status ≠ some (str "approved"))
    (hs2 : entry.status ≠ some (str "promoted")) :
    cmd_promote fs source fingerprint slug description target =
      (fs, .error (.invalidState entry.status)) := by
  have hnot : ¬(entry.status = some (str "approved") ∨ entry.status = some (str "promoted")) := by
    rintro (h | h)
    · exact hs1 h
    · exact hs2 h
  simp only [cmd_promote, hsrc, hread, hfind, if_neg hnot]

/-- Witness for C2: promoting a pending record fails with the invalid-state
error and leaves the filesystem unchanged. -/
theorem promote_invalid_state_witness :
    cmd_promote exFSPending (str "manual") (str "abc") (str "My Skill") []
      (str "skills") = (exFSPending, .error (.invalidState (some (str "pending")))) :=
  promote_invalid_state exFSPending (str "manual") (str "abc") (str "My Skill") []
    (str "skills") manualEntriesPath exDocPending
    { header_index := 0, end_index := 3, timestamp := str "t1", title := str "First",
      fingerprint := some (str "abc"), source := none, status := some (str "pending"),
      details := none, review_note := none }
    (by decide) (by decide) (by decide) (by decide) (by decide)

/-- C1 (amended): when the document loads, the record is located, its status
is `approved` or `promoted`, the slug normalises, the namespace resolves,
and the artifact file of the normalised slug already exists (its directory
chain being present, as holding a file implies), `cmd_promote` fails with
the duplicate-resource error naming that artifact path, and the filesystem —
the artifact's content and the document, hence the record's status and
reviewNote — is left exactly as it was: the existence check uses the
normalised slug and happens before any write. -/
theorem promote_duplicate_protect (fs : FS)
    (source fingerprint slug description target : List Char)
    (epath : DiskPath) (content : List Char) (entry : Entry)
    (normalizedSlug : List Char) (destinationDir : DiskPath)
    (hsrc : entries_path source = .ok epath)
    (hread : readFile fs epath = some content)
    (hfind : find_entry_by_fingerprint (parse_entries (load_lines content)) fingerprint = .ok entry)
    (hstatus : entry.status = some (str "approved") ∨ entry.status = some (str "promoted"))
    (hslug : safe_slug slug = .ok normalizedSlug)
    (hdir : skill_dir target normalizedSlug = .ok destinationDir)
    (hdirs : ∀ n, n < destinationDir.length → destinationDir.take (n+1) ∈ fs.dirs)
    (hexists : fileExists fs (destinationDir ++ [str "SKILL.md"]) = true) :
    cmd_promote fs source fingerprint slug description target =
      (fs, .error (.duplicateSkill (destinationDir ++ [str "SKILL.md"]))) := by
  have hmk : mkdirParents fs destinationDir = fs := mkdirParents_noop fs destinationDir hdirs
  simp only [cmd_promote, hsrc, hread, hfind, if_pos hstatus, hslug, hdir, hmk, hexists,
    if_true]

/-- Witness for C1 (amended): the second promotion of an approved record
whose artifact already exists fails with the duplicate error and leaves the
filesystem untouched. -/
theorem promote_duplicate_protect_witness :
    cmd_promote exFSDuplicate (str "manual") (str "abc") (str "My Skill") []
      (str "skills") =
      (exFSDuplicate, .error (.duplicateSkill (exSkillDir ++ [str "SKILL.md"]))) :=
  promote_duplicate_protect exFSDuplicate (str "manual") (str "abc") (str "My Skill") []
    (str "skills") manualEntriesPath exDocApproved
    { header_index := 0, end_index := 3, timestamp := str "t1", title := str "First",
      fingerprint := some (str "abc"), source := none, status := some (str "approved"),
      details := none, review_note := none }
    (str "my-skill") exSkillDir
    (by decide) (by decide) (by decide) (by decide) (by decide) (by decide)
    (by
      intro n hn
      have h3 : n < 3 := hn
      interval_cases n <;> decide)
    (by decide)

/-- Counterexample for C1 as stated: in a repository state where the
artifact file of the normalised slug `my-skill` already exists but the
record's status is `pending`, `cmd_promote` fails with the invalid-state
error, not the duplicate-resource error. -/
theorem promote_duplicate_counterexample :
    fileExists exFSDuplicatePending (exSkillDir ++ [str "SKILL.md"]) = true ∧
    safe_slug (str "My Skill") = .ok (str "my-skill") ∧
    cmd_promote exFSDuplicatePending (str "manual") (str "abc") (str "My Skill") []
      (str "skills") =
      (exFSDuplicatePending, .error (.invalidState (some (str "pending")))) := by
  refine ⟨by decide, by decide, ?_⟩
  decide

/-- A status field line is never a reviewNote field line: the two prefixes
disagree at their fifth character. -/
theorem status_line_not_reviewNote (l : List Char)
    (h : hasPrefixB (kvTarget (str "status")) l = true) :
    hasPrefixB (kvTarget (str "reviewNote")) l = false := by
  obtain ⟨t, ht⟩ := List.isPrefixOf_iff_prefix.mp h
  subst ht
  cases hb : hasPrefixB (kvTarget (str "reviewNote")) (kvTarget (str "status") ++ t) with
  | false => rfl
  | true =>
    obtain ⟨u, hu⟩ := List.isPrefixOf_iff_prefix.mp hb
    have e1 : kvTarget (str "status") =
        ' ' :: ' ' :: '-' :: ' ' :: 's' :: 't' :: 'a' :: 't' :: 'u' :: 's' :: ':' :: ' ' :: [] := rfl
    have e2 : kvTarget (str "reviewNote") =
        ' ' :: ' ' :: '-' :: ' ' :: 'r' :: 'e' :: 'v' :: 'i' :: 'e' :: 'w' :: 'N' :: 'o' :: 't' :: 'e' :: ':' :: ' ' :: [] := rfl
    rw [e1, e2] at hu
    simp only [List.cons_append, List.nil_append, List.cons.injEq] at hu
    exact absurd hu.2.2.2.2.1 (by decide)

/-- The freshly written field line is in the updated document. -/
theorem mem_update_or_insert (lines : List (List Char)) (entry : Entry)
    (key value : List Char) :
    (kvTarget key ++ value) ∈ update_or_insert_kv lines entry key value := by
  cases hres : findKvIndex lines (kvTarget key) (entry.header_index + 1) entry.end_index with
  | some i =>
    obtain ⟨-, -, h3, -⟩ :=
      (findKvF_spec lines (kvTarget key) (entry.end_index - (entry.header_index + 1)) (entry.header_index + 1)).1 i hres
    have hlen : i < lines.length := lt_length_of_kvTarget_prefix lines key i h3
    have heq : update_or_insert_kv lines entry key value = lines.set i (kvTarget key ++ value) := by
      simp only [update_or_insert_kv]
      rw [hres]
    rw [heq]
    have : (lines.set i (kvTarget key ++ value))[i]? = some (kvTarget key ++ value) :=
      List.getElem?_set_self hlen
    exact List.getElem?_mem this
  | none =>
    have heq : update_or_insert_kv lines entry key value =
        lines.take entry.end_index ++ (kvTarget key ++ value) :: lines.drop entry.end_index := by
      simp only [update_or_insert_kv]
      rw [hres]
    rw [heq]
    exact List.mem_append_right _ (List.mem_cons_self _ _)

/-- Replacing a line that does not satisfy `p` by another line that does not
satisfy `p` leaves the `p`-filtered document unchanged. -/
theorem filter_set_of_not (p : List Char → Bool) :
    ∀ (l : List (List Char)) (i : Nat) (v : List Char),
      (∀ w, l[i]? = some w → p w = false) → p v = false →
      (l.set i v).filter p = l.filter p := by
  intro l
  induction l with
  | nil => intro i v _ _; rfl
  | cons a as ih =>
    intro i v hold hv
    cases i with
    | zero =>
      have ha : p a = false := hold a (by simp)
      simp only [List.set_cons_zero, List.filter_cons, ha]
      simp [hv]
    | succ n =>
      have : (as.set n v).filter p = as.filter p :=
        ih n v (fun w hw => hold w (by simpa using hw)) hv
      simp only [List.set_cons_succ, List.filter_cons, this]

/-- Inserting a line that does not satisfy `p` leaves the `p`-filtered
document unchanged. -/
theorem filter_insert_of_not (p : List Char → Bool) (l : List (List Char))
    (n : Nat) (v : List Char) (hv : p v = false) :
    (l.take n ++ v :: l.drop n).filter p = l.filter p := by
  rw [List.filter_append, List.filter_cons_of_neg (by simp [hv]), ← List.filter_append,
    List.take_append_drop]

/-- A line read at a valid index is the line `getLineD` yields. -/
theorem getLineD_of_getElem? (lines : List (List Char)) (i : Nat) (w : List Char)
    (h : lines[i]? = some w) : getLineD lines i = w := by
  rw [getLineD, List.getD_eq_getElem?_getD, h]
  rfl

/-- Updating the status field never touches a reviewNote field line: the
reviewNote-prefixed lines of the document are unchanged. -/
theorem filter_reviewNote_update_status (lines : List (List Char)) (entry : Entry)
    (status : List Char) :
    (update_or_insert_kv lines entry (str "status") status).filter
        (fun l => hasPrefixB (kvTarget (str "reviewNote")) l) =
      lines.filter (fun l => hasPrefixB (kvTarget (str "reviewNote")) l) := by
  have hnew : hasPrefixB (kvTarget (str "reviewNote")) (kvTarget (str "status") ++ status) = false :=
    status_line_not_reviewNote _ (List.isPrefixOf_iff_prefix.mpr (List.prefix_append _ _))
  cases hres : findKvIndex lines (kvTarget (str "status")) (entry.header_index + 1) entry.end_index with
  | some i =>
    obtain ⟨-, -, h3, -⟩ :=
      (findKvF_spec lines (kvTarget (str "status")) (entry.end_index - (entry.header_index + 1)) (entry.header_index + 1)).1 i hres
    have heq : update_or_insert_kv lines entry (str "status") status =
        lines.set i (kvTarget (str "status") ++ status) := by
      simp only [update_or_insert_kv]
      rw [hres]
    rw [heq]
    apply filter_set_of_not
    · intro w hw
      rw [← getLineD_of_getElem? lines i w hw]
      exact status_line_not_reviewNote _ h3
    · exact hnew
  | none =>
    have heq : update_or_insert_kv lines entry (str "status") status =
        lines.take entry.end_index ++ (kvTarget (str "status") ++ status) :: lines.drop entry.end_index := by
      simp only [update_or_insert_kv]
      rw [hres]
    rw [heq]
    exact filter_insert_of_not _ lines entry.end_index _ hnew

/-- C9: `cmd_review` performs a blind overwrite — for any record located by
fingerprint, with no check on its prior status, it writes the status value
verbatim into a `status` field line of the record, sets `reviewNote` to the
trimmed reason exactly when the reason is nonempty after trimming (leaving
every reviewNote field line untouched otherwise), and persists the document
back to its file. -/
theorem review_blind_overwrite (fs : FS)
    (source fingerprint status reason : List Char)
    (epath : DiskPath) (content : List Char) (entry : Entry)
    (hsrc : entries_path source = .ok epath)
    (hread : readFile fs epath = some content)
    (hfind : find_entry_by_fingerprint (parse_entries (load_lines content)) fingerprint = .ok entry) :
    cmd_review fs source fingerprint status reason =
      (writeFile fs epath (save_string (
        if pyStrip reason ≠ [] then
          update_or_insert_kv (update_or_insert_kv (load_lines content) entry (str "status") status)
            entry (str "reviewNote") (pyStrip reason)
        else update_or_insert_kv (load_lines content) entry (str "status") status)), .ok ()) ∧
    (kvTarget (str "status") ++ status) ∈
      update_or_insert_kv (load_lines content) entry (str "status") status ∧
    (pyStrip reason = [] →
      (update_or_insert_kv (load_lines content) entry (str "status") status).filter
          (fun l => hasPrefixB (kvTarget (str "reviewNote")) l) =
        (load_lines content).filter (fun l => hasPrefixB (kvTarget (str "reviewNote")) l)) ∧
    (pyStrip reason ≠ [] →
      (kvTarget (str "reviewNote") ++ pyStrip reason) ∈
        update_or_insert_kv (update_or_insert_kv (load_lines content) entry (str "status") status)
          entry (str "reviewNote") (pyStrip reason)) := by
  refine ⟨?_, mem_update_or_insert _ _ _ _,
    fun _ => filter_reviewNote_update_status _ _ _,
    fun _ => mem_update_or_insert _ _ _ _⟩
  simp only [cmd_review, hsrc, hread, hfind]

/-- Witness for C9: reviewing the pending record with the non-canonical
status `wild` and a whitespace-only reason succeeds, writes the status
verbatim, and leaves the reviewNote lines untouched. -/
theorem review_blind_overwrite_witness :
    cmd_review exFSPending (str "manual") (str "abc") (str "wild") (str "  ") =
      (writeFile exFSPending manualEntriesPath (save_string (
        if pyStrip (str "  ") ≠ [] then
          update_or_insert_kv (update_or_insert_kv (load_lines exDocPending)
            { header_index := 0, end_index := 3, timestamp := str "t1", title := str "First",
              fingerprint := some (str "abc"), source := none, status := some (str "pending"),
              details := none, review_note := none } (str "status") (str "wild"))
            { header_index := 0, end_index := 3, timestamp := str "t1", title := str "First",
              fingerprint := some (str "abc"), source := none, status := some (str "pending"),
              details := none, review_note := none } (str "reviewNote") (pyStrip (str "  "))
        else update_or_insert_kv (load_lines exDocPending)
          { header_index := 0, end_index := 3, timestamp := str "t1", title := str "First",
            fingerprint := some (str "abc"), source := none, status := some (str "pending"),
            details := none, review_note := none } (str "status") (str "wild"))), .ok ()) ∧
    (kvTarget (str "status") ++ str "wild") ∈
      update_or_insert_kv (load_lines exDocPending)
        { header_index := 0, end_index := 3, timestamp := str "t1", title := str "First",
          fingerprint := some (str "abc"), source := none, status := some (str "pending"),
          details := none, review_note := none } (str "status") (str "wild") :=
  ⟨(review_blind_overwrite exFSPending (str "manual") (str "abc") (str "wild") (str "  ")
      manualEntriesPath exDocPending
      { header_index := 0, end_index := 3, timestamp := str "t1", title := str "First",
        fingerprint := some (str "abc"), source := none, status := some (str "pending"),
        details := none, review_note := none }
      (by decide) (by decide) (by decide)).1,
   (review_blind_overwrite exFSPending (str "manual") (str "abc") (str "wild") (str "  ")
      manualEntriesPath exDocPending
      { header_index := 0, end_index := 3, timestamp := str "t1", title := str "First",
        fingerprint := some (str "abc"), source := none, status := some (str "pending"),
        details := none, review_note := none }
      (by decide) (by decide) (by decide)).2.1⟩

/-- The four bucket lengths sum to the number of records whose trimmed
status is one of the four canonical strings. -/
theorem four_bucket_sum (xs : List Tagged) :
    (statusBucket xs (str "pending")).length + (statusBucket xs (str "approved")).length +
    (statusBucket xs (str "rejected")).length + (statusBucket xs (str "promoted")).length =
    (xs.filter anyCanonicalStatus).length := by
  induction xs with
  | nil => rfl
  | cons a as ih =>
    simp only [statusBucket, anyCanonicalStatus, List.filter_cons] at ih ⊢
    by_cases h1 : trimmedStatus a = str "pending" <;>
      by_cases h2 : trimmedStatus a = str "approved" <;>
      by_cases h3 : trimmedStatus a = str "rejected" <;>
      by_cases h4 : trimmedStatus a = str "promoted"
    all_goals try (rw [h1] at h2; exact absurd h2 (by decide))
    all_goals try (rw [h1] at h3; exact absurd h3 (by decide))
    all_goals try (rw [h1] at h4; exact absurd h4 (by decide))
    all_goals try (rw [h2] at h3; exact absurd h3 (by decide))
    all_goals try (rw [h2] at h4; exact absurd h4 (by decide))
    all_goals try (rw [h3] at h4; exact absurd h4 (by decide))
    all_goals simp [h1, h2, h3, h4,
      eq_false (by decide : ¬(str "pending" = str "approved")),
      eq_false (by decide : ¬(str "pending" = str "rejected")),
      eq_false (by decide : ¬(str "pending" = str "promoted")),
      eq_false (by decide : ¬(str "approved" = str "pending")),
      eq_false (by decide : ¬(str "approved" = str "rejected")),
      eq_false (by decide : ¬(str "approved" = str "promoted")),
      eq_false (by decide : ¬(str "rejected" = str "pending")),
      eq_false (by decide : ¬(str "rejected" = str "approved")),
      eq_false (by decide : ¬(str "rejected" = str "promoted")),
      eq_false (by decide : ¬(str "promoted" = str "pending")),
      eq_false (by decide : ¬(str "promoted" = str "approved")),
      eq_false (by decide : ¬(str "promoted" = str "rejected"))]
    all_goals omega

/-- C8: for any document set the dashboard's four bucket counts sum to
exactly the number of records whose trimmed status is one of the four
canonical strings; a record with any other trimmed status (empty and absent
statuses trim to the empty string) belongs to no bucket; and the pending
listing is the first `limit` pending records in document order. -/
theorem dashboard_partition (fs : FS) (limit : Nat) (mc gc : List Char) (d : Dashboard)
    (hm : readFile fs manualEntriesPath = some mc)
    (hg : readFile fs generatedEntriesPath = some gc)
    (hd : build_dashboard fs limit = .ok d) :
    d.counts.pending + d.counts.approved + d.counts.rejected + d.counts.promoted =
      ((taggedAll mc gc).filter anyCanonicalStatus).length ∧
    (∀ x ∈ taggedAll mc gc, anyCanonicalStatus x = false →
      x ∉ statusBucket (taggedAll mc gc) (str "pending") ∧
      x ∉ statusBucket (taggedAll mc gc) (str "approved") ∧
      x ∉ statusBucket (taggedAll mc gc) (str "rejected") ∧
      x ∉ statusBucket (taggedAll mc gc) (str "promoted")) ∧
    d.pending = ((statusBucket (taggedAll mc gc) (str "pending")).take limit).map serializeEntry ∧
    d.counts.pending = (statusBucket (taggedAll mc gc) (str "pending")).length ∧
    d.counts.approved = (statusBucket (taggedAll mc gc) (str "approved")).length ∧
    d.counts.rejected = (statusBucket (taggedAll mc gc) (str "rejected")).length ∧
    d.counts.promoted = (statusBucket (taggedAll mc gc) (str "promoted")).length := by
  simp only [build_dashboard, hm, hg, Except.ok.injEq] at hd
  subst hd
  refine ⟨four_bucket_sum (taggedAll mc gc), ?_, rfl, rfl, rfl, rfl, rfl⟩
  intro x hx hcanon
  have hmem : ∀ s : List Char, decide (trimmedStatus x = s) = false →
      x ∉ statusBucket (taggedAll mc gc) s := by
    intro s hs hmem
    rw [statusBucket, List.mem_filter] at hmem
    rw [hmem.2] at hs
    exact absurd hs (by decide)
  simp only [anyCanonicalStatus, Bool.or_eq_false_iff] at hcanon
  exact ⟨hmem _ hcanon.1.1.1, hmem _ hcanon.1.1.2, hmem _ hcanon.1.2, hmem _ hcanon.2⟩

/-- Witness for C8: on six concrete records (four canonical, one `weird`,
one status-less) the four counts sum to the number of canonical records. -/
theorem dashboard_partition_witness :
    build_dashboard exFSDash 2 = .ok exDash ∧
    exDash.counts.pending + exDash.counts.approved + exDash.counts.rejected +
        exDash.counts.promoted =
      ((taggedAll exManualDoc exGeneratedDoc).filter anyCanonicalStatus).length :=
  ⟨by decide,
   (dashboard_partition exFSDash 2 exManualDoc exGeneratedDoc exDash
      (by decide) (by decide) (by decide)).1⟩

/-- Characters are equal exactly when their code points are. -/
theorem char_eq_iff_toNat (c d : Char) : c = d ↔ c.toNat = d.toNat := by
  constructor
  · intro h; rw [h]
  · intro h; exact Char.ext (UInt32.ext h)

/-- `Char.isUpper` through code points. -/
theorem isUpper_toNat (c : Char) : c.isUpper = decide (65 ≤ c.toNat ∧ c.toNat ≤ 90) := by
  simp only [Char.isUpper, Char.toNat, Bool.decide_and]
  rfl

/-- `Char.isLower` through code points. -/
theorem isLower_toNat (c : Char) : c.isLower = decide (97 ≤ c.toNat ∧ c.toNat ≤ 122) := by
  simp only [Char.isLower, Char.toNat, Bool.decide_and]
  rfl

/-- `Char.isDigit` through code points. -/
theorem isDigit_toNat (c : Char) : c.isDigit = decide (48 ≤ c.toNat ∧ c.toNat ≤ 57) := by
  simp only [Char.isDigit, Char.toNat, Bool.decide_and]
  rfl

/-- Lowercasing an ASCII capital letter adds 32 to its code point. -/
theorem toLower_toNat_of_upper (c : Char) (h1 : 65 ≤ c.toNat) (h2 : c.toNat ≤ 90) :
    (Char.toLower c).toNat = c.toNat + 32 := by
  have hc : Char.toLower c = Char.ofNat (c.toNat + 32) := by
    simp only [Char.toLower]
    rw [if_pos ⟨h1, h2⟩]
  rw [hc]
  have hv' : (c.val.toNat + 32).isValidChar := Or.inl (by
    have : c.val.toNat = c.toNat := rfl
    omega)
  simp only [Char.ofNat, Char.ofNatAux, Char.toNat, UInt32.ofNat']
  rw [dif_pos hv']
  simp [UInt32.toNat, BitVec.toNat_ofNatLt]

/-- `Char.toLower` fixes everything that is not an ASCII capital letter. -/
theorem toLower_of_not_upper (c : Char) (h : ¬(65 ≤ c.toNat ∧ c.toNat ≤ 90)) :
    Char.toLower c = c := by
  simp only [Char.toLower]
  rw [if_neg h]

/-- A whitespace character has one of the twenty-nine whitespace code
points. -/
theorem toNat_of_pyIsSpace (c : Char) (h : pyIsSpace c = true) :
    c.toNat ∈ ([32, 9, 10, 13, 11, 12, 28, 29, 30, 31, 133, 160, 5760,
      8192, 8193, 8194, 8195, 8196, 8197, 8198, 8199, 8200, 8201, 8202,
      8232, 8233, 8239, 8287, 12288] : List Nat) := by
  simp only [pyIsSpace, decide_eq_true_eq, List.mem_cons, List.not_mem_nil, or_false] at h
  rcases h with rfl|rfl|rfl|rfl|rfl|rfl|rfl|rfl|rfl|rfl|rfl|rfl|rfl|rfl|rfl|rfl|rfl|rfl|rfl|rfl|rfl|rfl|rfl|rfl|rfl|rfl|rfl|rfl|rfl <;> decide

/-- Whitespace is never kept by the `[a-zA-Z0-9-]` class. -/
theorem slugKeepCode_of_space (c : Char) (h : pyIsSpace c = true) :
    slugKeepCode c = false := by
  have hmem := toNat_of_pyIsSpace c h
  have hn : ¬(65 ≤ c.toNat ∧ c.toNat ≤ 90) ∧ ¬(97 ≤ c.toNat ∧ c.toNat ≤ 122) ∧
      ¬(48 ≤ c.toNat ∧ c.toNat ≤ 57) ∧ c.toNat ≠ 45 := by
    simp only [List.mem_cons, List.not_mem_nil, or_false] at hmem
    omega
  simp only [slugKeepCode, Char.isAlphanum, Char.isAlpha, isUpper_toNat, isLower_toNat,
    isDigit_toNat, isHyphen, Bool.or_eq_false_iff, decide_eq_false_iff_not]
  refine ⟨⟨⟨hn.1, hn.2.1⟩, hn.2.2.1⟩, ?_⟩
  rw [char_eq_iff_toNat]
  have : ('-').toNat = 45 := by decide
  omega

/-- Whitespace is never kept by the `[a-z0-9-]` class either. -/
theorem slugKeepSpec_of_space (c : Char) (h : pyIsSpace c = true) :
    slugKeepSpec c = false := by
  have hmem := toNat_of_pyIsSpace c h
  have hn : ¬(97 ≤ c.toNat ∧ c.toNat ≤ 122) ∧ ¬(48 ≤ c.toNat ∧ c.toNat ≤ 57) ∧
      c.toNat ≠ 45 := by
    simp only [List.mem_cons, List.not_mem_nil, or_false] at hmem
    omega
  simp only [slugKeepSpec, isLower_toNat, isDigit_toNat, Bool.or_eq_false_iff,
    decide_eq_false_iff_not]
  refine ⟨⟨hn.1, hn.2.1⟩, ?_⟩
  rw [char_eq_iff_toNat]
  have : ('-').toNat = 45 := by decide
  omega

/-- Lowercasing turns membership in `[a-zA-Z0-9-]` into membership in
`[a-z0-9-]`. -/
theorem slugKeepSpec_toLower (c : Char) : slugKeepSpec (Char.toLower c) = slugKeepCode c := by
  by_cases h : 65 ≤ c.toNat ∧ c.toNat ≤ 90
  · have ht := toLower_toNat_of_upper c h.1 h.2
    have hlow : (Char.toLower c).isLower = true := by
      rw [isLower_toNat]
      exact decide_eq_true (by omega)
    have hup : c.isUpper = true := by
      rw [isUpper_toNat]
      exact decide_eq_true h
    simp [slugKeepSpec, slugKeepCode, Char.isAlphanum, Char.isAlpha, hlow, hup]
  · rw [toLower_of_not_upper c h]
    have hup : c.isUpper = false := by
      rw [isUpper_toNat]
      exact decide_eq_false h
    simp [slugKeepSpec, slugKeepCode, Char.isAlphanum, Char.isAlpha, hup, Bool.or_assoc]

/-- Lowercasing neither creates nor destroys hyphens. -/
theorem isHyphen_toLower (c : Char) : isHyphen (Char.toLower c) = isHyphen c := by
  by_cases h : 65 ≤ c.toNat ∧ c.toNat ≤ 90
  · have ht := toLower_toNat_of_upper c h.1 h.2
    have hd : ('-').toNat = 45 := by decide
    have l1 : isHyphen (Char.toLower c) = false := by
      simp only [isHyphen]
      apply decide_eq_false
      rw [char_eq_iff_toNat]
      omega
    have l2 : isHyphen c = false := by
      simp only [isHyphen]
      apply decide_eq_false
      rw [char_eq_iff_toNat]
      omega
    rw [l1, l2]
  · rw [toLower_of_not_upper c h]

/-- Lowercasing neither creates nor destroys whitespace. -/
theorem pyIsSpace_toLower (c : Char) : pyIsSpace (Char.toLower c) = pyIsSpace c := by
  by_cases h : 65 ≤ c.toNat ∧ c.toNat ≤ 90
  · have ht := toLower_toNat_of_upper c h.1 h.2
    have l1 : pyIsSpace (Char.toLower c) = false := by
      cases hs : pyIsSpace (Char.toLower c) with
      | false => rfl
      | true =>
        have := toNat_of_pyIsSpace _ hs
        simp only [List.mem_cons, List.not_mem_nil, or_false] at this
        omega
    have l2 : pyIsSpace c = false := by
      cases hs : pyIsSpace c with
      | false => rfl
      | true =>
        have := toNat_of_pyIsSpace _ hs
        simp only [List.mem_cons, List.not_mem_nil, or_false] at this
        omega
    rw [l1, l2]
  · rw [toLower_of_not_upper c h]

/-- Reversal preserves emptiness. -/
theorem isEmpty_reverse (l : List Char) : l.reverse.isEmpty = l.isEmpty := by
  cases l with
  | nil => rfl
  | cons a as => simp [List.isEmpty_iff]

/-- `dropWhile` commutes with `Char.toLower` mapping for a predicate the
lowering preserves. -/
theorem dropWhile_map_toLower (p : Char → Bool) (hp : ∀ c, p (Char.toLower c) = p c)
    (l : List Char) :
    (l.map Char.toLower).dropWhile p = (l.dropWhile p).map Char.toLower := by
  have hpe : (p ∘ Char.toLower) = p := funext hp
  rw [List.dropWhile_map, hpe]

/-- `dropTrailing` commutes with `Char.toLower` mapping for a predicate the
lowering preserves. -/
theorem dropTrailing_map_toLower (p : Char → Bool) (hp : ∀ c, p (Char.toLower c) = p c)
    (l : List Char) :
    dropTrailing p (l.map Char.toLower) = (dropTrailing p l).map Char.toLower := by
  have hpe : (p ∘ Char.toLower) = p := funext hp
  simp only [dropTrailing]
  rw [← List.map_reverse, List.dropWhile_map, hpe, ← List.map_reverse]

/-- `.strip("-")` commutes with lowercasing. -/
theorem stripHyphens_map_toLower (l : List Char) :
    stripHyphens (l.map Char.toLower) = (stripHyphens l).map Char.toLower := by
  simp only [stripHyphens]
  rw [dropTrailing_map_toLower isHyphen isHyphen_toLower,
    dropWhile_map_toLower isHyphen isHyphen_toLower]

/-- `.strip()` commutes with lowercasing. -/
theorem pyStrip_map_toLower (l : List Char) :
    pyStrip (l.map Char.toLower) = (pyStrip l).map Char.toLower := by
  simp only [pyStrip]
  rw [dropWhile_map_toLower pyIsSpace pyIsSpace_toLower,
    dropTrailing_map_toLower pyIsSpace pyIsSpace_toLower]

/-- Lowercasing the collapse over `[a-zA-Z0-9-]` is the collapse over
`[a-z0-9-]` of the lowercased input. -/
theorem collapseAux_map_toLower :
    ∀ (l : List Char) (b : Bool),
      (collapseAux slugKeepCode l b).map Char.toLower =
        collapseAux slugKeepSpec (l.map Char.toLower) b := by
  intro l
  induction l with
  | nil => intro b; rfl
  | cons c cs ih =>
    intro b
    simp only [List.map_cons, collapseAux, slugKeepSpec_toLower]
    cases h : slugKeepCode c with
    | true => simp [h, ih]
    | false =>
      cases b with
      | true => simp [h, ih]
      | false => simp [h, ih, show Char.toLower '-' = '-' from rfl]

/-- The collapse started inside a run differs from the one started outside
it by at most one leading hyphen. -/
theorem collapseAux_flag (p : Char → Bool) (t : List Char) :
    collapseAux p t false = collapseAux p t true ∨
    collapseAux p t false = '-' :: collapseAux p t true := by
  cases t with
  | nil => left; rfl
  | cons c cs =>
    cases h : p c with
    | true => left; simp [collapseAux, h]
    | false => right; simp [collapseAux, h]

/-- Peeling one element off `dropTrailing`. -/
theorem dropTrailing_cons (p : Char → Bool) (c : Char) (X : List Char) :
    dropTrailing p (c :: X) =
      if (dropTrailing p X).isEmpty then (if p c then [] else [c])
      else c :: dropTrailing p X := by
  simp only [dropTrailing, List.reverse_cons, List.dropWhile_append]
  rw [show (X.reverse.dropWhile p).reverse.isEmpty = (X.reverse.dropWhile p).isEmpty from
    isEmpty_reverse _]
  by_cases h : (X.reverse.dropWhile p).isEmpty = true
  · rw [if_pos h, if_pos h]
    cases hp : p c with
    | true => simp [List.dropWhile_cons, hp]
    | false => simp [List.dropWhile_cons, hp]
  · rw [if_neg h, if_neg h]
    simp

/-- Stripping hyphens ignores one prepended hyphen. -/
theorem stripHyphens_hyphen_cons (X : List Char) :
    stripHyphens ('-' :: X) = stripHyphens X := by
  simp only [stripHyphens, dropTrailing_cons]
  by_cases h : (dropTrailing isHyphen X).isEmpty = true
  · rw [if_pos h, if_pos (by decide : isHyphen '-' = true)]
    rw [List.isEmpty_iff.mp h]
  · rw [if_neg h]
    exact List.dropWhile_cons_of_pos (by decide)

/-- Up to the final hyphen strip, the starting flag of the collapse does not
matter. -/
theorem stripHyphens_collapseAux_flag (p : Char → Bool) (t : List Char) :
    stripHyphens (collapseAux p t false) = stripHyphens (collapseAux p t true) := by
  rcases collapseAux_flag p t with h | h
  · rw [h]
  · rw [h, stripHyphens_hyphen_cons]

/-- Dropping leading whitespace before collapsing is invisible after the
hyphen strip, provided the kept class contains no whitespace. -/
theorem lead_absorb (p : Char → Bool) (hdisj : ∀ c, pyIsSpace c = true → p c = false) :
    ∀ (s : List Char) (b : Bool),
      stripHyphens (collapseAux p (s.dropWhile pyIsSpace) b) =
        stripHyphens (collapseAux p s b) := by
  intro s
  induction s with
  | nil => intro b; rfl
  | cons c cs ih =>
    intro b
    cases hw : pyIsSpace c with
    | false =>
      rw [List.dropWhile_cons_of_neg (by simp [hw])]
    | true =>
      rw [List.dropWhile_cons_of_pos hw]
      have hpc : p c = false := hdisj c hw
      cases b with
      | true =>
        rw [ih true]
        simp [collapseAux, hpc]
      | false =>
        rw [ih false, stripHyphens_collapseAux_flag]
        simp only [collapseAux, hpc, Bool.false_eq_true, if_false]
        rw [stripHyphens_hyphen_cons]

/-- Collapse of an all-whitespace tail: nothing inside a run, a single
hyphen outside it. -/
theorem collapse_all_space (p : Char → Bool) (hdisj : ∀ c, pyIsSpace c = true → p c = false) :
    ∀ w : List Char, (∀ c ∈ w, pyIsSpace c = true) →
      collapseAux p w true = [] ∧
      collapseAux p w false = (if w.isEmpty then [] else ['-']) := by
  intro w
  induction w with
  | nil => intro _; exact ⟨rfl, rfl⟩
  | cons c cs ih =>
    intro hall
    have hpc : p c = false := hdisj c (hall c (List.mem_cons_self c cs))
    have ihc := ih (fun x hx => hall x (List.mem_cons_of_mem c hx))
    constructor
    · simp only [collapseAux, hpc, Bool.false_eq_true, if_false, if_true]
      exact ihc.1
    · simp only [collapseAux, hpc, Bool.false_eq_true, if_false, List.isEmpty_cons]
      rw [ihc.1]

/-- Appending trailing whitespace before collapsing is invisible after the
trailing hyphen strip. -/
theorem trail_absorb (p : Char → Bool) (hdisj : ∀ c, pyIsSpace c = true → p c = false) :
    ∀ (s w : List Char) (b : Bool), (∀ c ∈ w, pyIsSpace c = true) →
      dropTrailing isHyphen (collapseAux p (s ++ w) b) =
        dropTrailing isHyphen (collapseAux p s b) := by
  intro s
  induction s with
  | nil =>
    intro w b hall
    obtain ⟨h1, h2⟩ := collapse_all_space p hdisj w hall
    rw [List.nil_append]
    cases b with
    | true => rw [h1]; rfl
    | false =>
      rw [h2]
      cases hw : w.isEmpty with
      | true => rw [if_pos rfl]; rfl
      | false => rw [if_neg (by simp)]; rfl
  | cons c cs ih =>
    intro w b hall
    rw [List.cons_append]
    cases hp : p c with
    | true =>
      simp only [collapseAux, hp, if_true]
      rw [dropTrailing_cons, dropTrailing_cons, ih w false hall]
    | false =>
      cases b with
      | true =>
        simp only [collapseAux, hp, Bool.false_eq_true, if_false, if_true]
        exact ih w true hall
      | false =>
        simp only [collapseAux, hp, Bool.false_eq_true, if_false]
        rw [dropTrailing_cons, dropTrailing_cons, ih w true hall]

/-- Every element of the trailing segment satisfies the predicate. -/
theorem mem_takeTrailing (p : Char → Bool) (l : List Char) (c : Char)
    (h : c ∈ (l.reverse.takeWhile p).reverse) : p c = true := by
  rw [List.mem_reverse] at h
  exact List.mem_takeWhile_imp h

/-- A list is its trailing-drop followed by the dropped whitespace tail. -/
theorem dropTrailing_append_tail (p : Char → Bool) (l : List Char) :
    dropTrailing p l ++ (l.reverse.takeWhile p).reverse = l := by
  simp only [dropTrailing]
  rw [← List.reverse_append, List.takeWhile_append_dropWhile, List.reverse_reverse]

/-- Python's pre-strip of whitespace in `safe_slug` is redundant after the
hyphen strip. -/
theorem strip_collapse_pyStrip (p : Char → Bool)
    (hdisj : ∀ c, pyIsSpace c = true → p c = false) (v : List Char) :
    stripHyphens (collapseRuns p (pyStrip v)) = stripHyphens (collapseRuns p v) := by
  have step1 : stripHyphens (collapseRuns p (pyStrip v)) =
      stripHyphens (collapseRuns p (v.dropWhile pyIsSpace)) := by
    simp only [stripHyphens, collapseRuns, pyStrip]
    congr 1
    conv_rhs => rw [← dropTrailing_append_tail pyIsSpace (v.dropWhile pyIsSpace)]
    exact (trail_absorb p hdisj _ _ false
      (fun c hc => mem_takeTrailing pyIsSpace _ c hc)).symm
  rw [step1]
  exact lead_absorb p hdisj v false

/-- C7: `safe_slug` computes exactly what the specification describes —
lowercase, collapse each maximal run of characters outside `[a-z0-9-]` into
one hyphen, trim hyphens at both ends — and it fails with the invalid-slug
error exactly when that result is empty.  (`Char.toLower` stands for Python
`str.lower`; inside `safe_slug` it is only ever applied to ASCII
alphanumerics and hyphens, where the two agree.) -/
theorem safe_slug_matches_spec (value : List Char) :
    safe_slug value = slug_spec value ∧
    (safe_slug value = .error .invalidSlug ↔
      stripHyphens (collapseRuns slugKeepSpec (value.map Char.toLower)) = []) := by
  have core : (stripHyphens (collapseRuns slugKeepCode (pyStrip value))).map Char.toLower =
      stripHyphens (collapseRuns slugKeepSpec (value.map Char.toLower)) := by
    calc (stripHyphens (collapseRuns slugKeepCode (pyStrip value))).map Char.toLower
        = stripHyphens ((collapseRuns slugKeepCode (pyStrip value)).map Char.toLower) :=
          (stripHyphens_map_toLower _).symm
      _ = stripHyphens (collapseRuns slugKeepSpec ((pyStrip value).map Char.toLower)) := by
          simp only [collapseRuns]
          rw [collapseAux_map_toLower]
      _ = stripHyphens (collapseRuns slugKeepSpec (pyStrip (value.map Char.toLower))) := by
          rw [pyStrip_map_toLower]
      _ = stripHyphens (collapseRuns slugKeepSpec (value.map Char.toLower)) :=
          strip_collapse_pyStrip slugKeepSpec slugKeepSpec_of_space _
  constructor
  · simp only [safe_slug, slug_spec, core]
  · simp only [safe_slug, core]
    cases hY : (stripHyphens (collapseRuns slugKeepSpec (value.map Char.toLower))).isEmpty with
    | true =>
      rw [if_pos rfl]
      simp [List.isEmpty_iff.mp hY]
    | false =>
      rw [if_neg (by simp)]
      constructor
      · intro h; cases h
      · intro h
        rw [h] at hY
        cases hY

/-- Text reading changes nothing when the content has no carriage return. -/
theorem univNewlines_id : ∀ s : List Char, '\r' ∉ s → univNewlines s = s := by
  intro s hs
  induction s using univNewlines.induct with
  | case1 => rfl
  | case2 cs _ => exact absurd (List.mem_cons_self _ _) hs
  | case3 cs _ _ => exact absurd (List.mem_cons_self _ _) hs
  | case4 c cs hc hcr ih =>
    have h2 : '\r' ∉ cs := fun h => hs (List.mem_cons_of_mem c h)
    have heq : univNewlines (c :: cs) = c :: univNewlines cs := by
      rw [univNewlines.eq_def]
      split <;> simp_all
    rw [heq, ih h2]

/-- The line splitter never returns an empty list of lines. -/
theorem splitLinesAux_ne_nil : ∀ (s acc : List Char), splitLinesAux s acc ≠ [] := by
  intro s
  induction s with
  | nil => intro acc h; cases h
  | cons c cs ih =>
    intro acc
    by_cases hb : isLineBreak c = true
    · simp [splitLinesAux, hb]
    · simp only [splitLinesAux, hb, Bool.false_eq_true, if_false]
      exact ih (acc ++ [c])

/-- Joining a nonempty tail inserts a newline after the head line. -/
theorem joinNL_cons_of_ne (a : List Char) (L : List (List Char)) (h : L ≠ []) :
    joinNL (a :: L) = a ++ '\n' :: joinNL L := by
  cases L with
  | nil => exact absurd rfl h
  | cons b bs => rfl

/-- Joining the split of a content whose only line boundary is `\n` gives
the content back, up to one trailing newline. -/
theorem joinNL_splitLinesAux :
    ∀ (s acc : List Char), (∀ c ∈ s, isLineBreak c = true → c = '\n') →
      joinNL (splitLinesAux s acc) = acc ++ s ∨
      acc ++ s = joinNL (splitLinesAux s acc) ++ ['\n'] := by
  intro s
  induction s with
  | nil => intro acc _; left; simp [splitLinesAux, joinNL]
  | cons c cs ih =>
    intro acc hall
    by_cases hb : isLineBreak c = true
    · have hc : c = '\n' := hall c (List.mem_cons_self c cs) hb
      subst hc
      simp only [splitLinesAux, hb, if_true]
      cases hcs : cs.isEmpty with
      | true =>
        right
        rw [List.isEmpty_iff.mp hcs]
        simp [joinNL]
      | false =>
        simp only [Bool.false_eq_true, if_false]
        rw [joinNL_cons_of_ne acc _ (splitLinesAux_ne_nil cs [])]
        rcases ih [] (fun x hx hbx => hall x (List.mem_cons_of_mem _ hx) hbx) with h | h
        · left
          rw [List.nil_append] at h
          rw [h]
        · right
          rw [List.nil_append] at h
          conv_lhs => rw [h]
          simp
    · have hb' : isLineBreak c = false := by simpa using hb
      simp only [splitLinesAux, hb', Bool.false_eq_true, if_false]
      rcases ih (acc ++ [c]) (fun x hx hbx => hall x (List.mem_cons_of_mem c hx) hbx) with h | h
      · left
        rw [h]
        simp
      · right
        rw [← h]
        simp

/-- `rstrip` absorbs one trailing newline. -/
theorem pyRStrip_append_newline (X : List Char) : pyRStrip (X ++ ['\n']) = pyRStrip X := by
  simp only [pyRStrip, dropTrailing, List.reverse_append]
  rw [show (['\n'] : List Char).reverse ++ X.reverse = '\n' :: X.reverse by simp]
  rw [List.dropWhile_cons_of_pos (by decide)]

/-- C3 (amended): for a document file whose content has no carriage return
and no line-boundary character other than newline, loading the lines and
saving them unchanged writes exactly the original content with all trailing
whitespace trimmed and one final newline appended. -/
theorem load_save_roundtrip (s : List Char)
    (hs : ∀ c ∈ s, c ≠ '\r' ∧ (isLineBreak c = true → c = '\n')) :
    save_string (load_lines s) = pyRStrip s ++ ['\n'] := by
  have hnr : univNewlines s = s := univNewlines_id s (fun hmem => (hs '\r' hmem).1 rfl)
  rw [save_string, load_lines, hnr]
  congr 1
  cases s with
  | nil => rfl
  | cons c cs =>
    rw [show pySplitLines (c :: cs) = splitLinesAux (c :: cs) [] from rfl]
    rcases joinNL_splitLinesAux (c :: cs) [] (fun x hx hbx => (hs x hx).2 hbx) with h | h
    · rw [List.nil_append] at h
      rw [h]
    · rw [List.nil_append] at h
      conv_rhs => rw [h]
      rw [pyRStrip_append_newline]

/-- Witness for C3 (amended): a newline-only content with trailing blank
lines and spaces round-trips to its right-stripped form plus one newline. -/
theorem load_save_roundtrip_witness :
    (∀ c ∈ str "x\n\ny  \n\n", c ≠ '\r' ∧ (isLineBreak c = true → c = '\n')) ∧
    save_string (load_lines (str "x\n\ny  \n\n")) = pyRStrip (str "x\n\ny  \n\n") ++ ['\n'] :=
  ⟨by decide, load_save_roundtrip _ (by decide)⟩

/-- Counterexample for C3 as stated: a document containing a bare carriage
return is rewritten with that interior byte replaced by a newline, which is
not a trailing-whitespace normalisation. -/
theorem load_save_roundtrip_counterexample :
    save_string (load_lines (str "a\rb")) = str "a\nb\n" ∧
    pyRStrip (str "a\rb") ++ ['\n'] = str "a\rb\n" ∧
    save_string (load_lines (str "a\rb")) ≠ pyRStrip (str "a\rb") ++ ['\n'] := by
  refine ⟨by decide, by decide, by decide⟩

/-- The header scan with fuel reaching the end of the document stays within
bounds, and stops only at a header line or the end of the document. -/
theorem findNextHeaderF_spec (lines : List (List Char)) :
    ∀ (n i : Nat), i + n = lines.length →
      i ≤ findNextHeaderF lines n i ∧ findNextHeaderF lines n i ≤ lines.length ∧
      (findNextHeaderF lines n i < lines.length →
        isHeaderB (getLineD lines (findNextHeaderF lines n i)) = true) := by
  intro n
  induction n with
  | zero =>
    intro i hlen
    simp only [findNextHeaderF]
    refine ⟨Nat.le_refl i, by omega, ?_⟩
    intro h
    omega
  | succ m ih =>
    intro i hlen
    have hi : i < lines.length := by omega
    cases hh : isHeaderB (getLineD lines i) with
    | true =>
      have heq : findNextHeaderF lines (m+1) i = i := by
        simp only [findNextHeaderF]
        rw [if_pos hi, if_pos hh]
      rw [heq]
      exact ⟨Nat.le_refl i, by omega, fun _ => hh⟩
    | false =>
      have heq : findNextHeaderF lines (m+1) i = findNextHeaderF lines m (i+1) := by
        simp only [findNextHeaderF]
        rw [if_pos hi, if_neg (by rw [hh]; exact Bool.false_ne_true)]
      rw [heq]
      obtain ⟨h1, h2, h3⟩ := ih (i+1) (by omega)
      exact ⟨by omega, h2, h3⟩

/-- Parsing past the end of the document yields no entries. -/
theorem parseFromF_nil_of_ge (lines : List (List Char)) (fuel i : Nat)
    (h : lines.length ≤ i) : parseFromF lines fuel i = [] := by
  cases fuel with
  | zero => rfl
  | succ m =>
    simp only [parseFromF, if_neg (by omega : ¬ i < lines.length)]

/-- When the scan starts on a header line, the first parsed record's span
starts exactly there. -/
theorem parseFromF_first_header (lines : List (List Char)) (fuel j : Nat) (en : Entry)
    (hj : j < lines.length) (hh : isHeaderB (getLineD lines j) = true)
    (hget : (parseFromF lines fuel j)[0]? = some en) : en.header_index = j := by
  cases fuel with
  | zero => cases hget
  | succ m =>
    simp only [parseFromF, if_pos hj, hh, if_true, List.getElem?_cons_zero,
      Option.some.injEq] at hget
    rw [← hget]
    rfl

/-- Master description of the outer parser scan: every produced record is the
record assembled at its own span, spans sit between `i` and the end of the
document, consecutive spans share their boundary, and the last span ends at
the end of the document. -/
theorem parseFromF_spec (lines : List (List Char)) :
    ∀ (fuel i : Nat), lines.length ≤ i + fuel →
      (∀ (p : Nat) (en : Entry), (parseFromF lines fuel i)[p]? = some en →
        i ≤ en.header_index ∧ en.header_index < en.end_index ∧
        en.end_index ≤ lines.length ∧
        isHeaderB (getLineD lines en.header_index) = true ∧
        en = mkEntry lines en.header_index en.end_index) ∧
      (∀ (p : Nat) (en en' : Entry), (parseFromF lines fuel i)[p]? = some en →
        (parseFromF lines fuel i)[p+1]? = some en' → en.end_index = en'.header_index) ∧
      (∀ (p : Nat) (en : Entry), (parseFromF lines fuel i)[p]? = some en →
        (parseFromF lines fuel i)[p+1]? = none → en.end_index = lines.length) := by
  intro fuel
  induction fuel with
  | zero =>
    intro i hlen
    refine ⟨?_, ?_, ?_⟩
    · intro p en h
      cases h
    · intro p en en' h h'
      cases h
    · intro p en h h'
      cases h
  | succ m ih =>
    intro i hlen
    by_cases hi : i < lines.length
    · cases hh : isHeaderB (getLineD lines i) with
      | false =>
        have heq : parseFromF lines (m+1) i = parseFromF lines m (i+1) := by
          simp only [parseFromF]
          rw [if_pos hi, if_neg (by rw [hh]; exact Bool.false_ne_true)]
        rw [heq]
        obtain ⟨A, B, C⟩ := ih (i+1) (by omega)
        refine ⟨?_, B, C⟩
        intro p en h
        obtain ⟨a1, a2, a3, a4, a5⟩ := A p en h
        exact ⟨by omega, a2, a3, a4, a5⟩
      | true =>
        have heq : parseFromF lines (m+1) i =
            mkEntry lines i (findNextHeader lines (i+1)) ::
              parseFromF lines m (findNextHeader lines (i+1)) := by
          simp only [parseFromF]
          rw [if_pos hi, if_pos hh]
        obtain ⟨hj1, hj2, hj3⟩ :=
          findNextHeaderF_spec lines (lines.length - (i+1)) (i+1) (by omega)
        have hj1' : i + 1 ≤ findNextHeader lines (i+1) := hj1
        have hj2' : findNextHeader lines (i+1) ≤ lines.length := hj2
        have hj3' : findNextHeader lines (i+1) < lines.length →
            isHeaderB (getLineD lines (findNextHeader lines (i+1))) = true := hj3
        obtain ⟨A, B, C⟩ := ih (findNextHeader lines (i+1)) (by omega)
        rw [heq]
        refine ⟨?_, ?_, ?_⟩
        · intro p en h
          cases p with
          | zero =>
            rw [List.getElem?_cons_zero, Option.some.injEq] at h
            subst h
            exact ⟨Nat.le_refl i, by
              show i < findNextHeader lines (i+1)
              omega, hj2', hh, rfl⟩
          | succ p' =>
            rw [List.getElem?_cons_succ] at h
            obtain ⟨a1, a2, a3, a4, a5⟩ := A p' en h
            exact ⟨by omega, a2, a3, a4, a5⟩
        · intro p en en' h h'
          cases p with
          | zero =>
            rw [List.getElem?_cons_zero, Option.some.injEq] at h
            subst h
            rw [List.getElem?_cons_succ] at h'
            by_cases hjl : lines.length ≤ findNextHeader lines (i+1)
            · rw [parseFromF_nil_of_ge lines m _ hjl] at h'
              cases h'
            · have hjlt : findNextHeader lines (i+1) < lines.length := by omega
              have hfirst := parseFromF_first_header lines m _ en' hjlt (hj3' hjlt) h'
              rw [hfirst]
              rfl
          | succ p' =>
            rw [List.getElem?_cons_succ] at h h'
            exact B p' en en' h h'
        · intro p en h h'
          cases p with
          | zero =>
            rw [List.getElem?_cons_zero, Option.some.injEq] at h
            subst h
            rw [List.getElem?_cons_succ] at h'
            show findNextHeader lines (i+1) = lines.length
            by_cases hjl : lines.length ≤ findNextHeader lines (i+1)
            · omega
            · have hjlt : findNextHeader lines (i+1) < lines.length := by omega
              cases hm : m with
              | zero => omega
              | succ m' =>
                rw [hm] at h'
                have hne : parseFromF lines (m'+1) (findNextHeader lines (i+1)) =
                    mkEntry lines (findNextHeader lines (i+1))
                        (findNextHeader lines (findNextHeader lines (i+1) + 1)) ::
                      parseFromF lines m' (findNextHeader lines (findNextHeader lines (i+1) + 1)) := by
                  simp only [parseFromF]
                  rw [if_pos hjlt, if_pos (hj3' hjlt)]
                rw [hne, List.getElem?_cons_zero] at h'
                cases h'
          | succ p' =>
            rw [List.getElem?_cons_succ] at h h'
            exact C p' en h h'
    · rw [parseFromF_nil_of_ge lines (m+1) i (by omega)]
      refine ⟨?_, ?_, ?_⟩
      · intro p en h
        cases h
      · intro p en en' h h'
        cases h
      · intro p en h h'
        cases h

/-- C5: the records of `parse_entries` come in document order with pairwise
non-overlapping spans — every span starts at a header line and is nonempty,
consecutive spans share their boundary, the last span ends at the end of the
document, and any earlier record's span ends at or before any later
record's header. -/
theorem parse_entries_spans (lines : List (List Char)) :
    (∀ (p : Nat) (en : Entry), (parse_entries lines)[p]? = some en →
      en.header_index < en.end_index ∧ en.end_index ≤ lines.length ∧
      isHeaderB (getLineD lines en.header_index) = true) ∧
    (∀ (p : Nat) (en en' : Entry), (parse_entries lines)[p]? = some en →
      (parse_entries lines)[p+1]? = some en' → en.end_index = en'.header_index) ∧
    (∀ (p : Nat) (en : Entry), (parse_entries lines)[p]? = some en →
      (parse_entries lines)[p+1]? = none → en.end_index = lines.length) ∧
    (∀ (p q : Nat) (en en' : Entry), p < q →
      (parse_entries lines)[p]? = some en → (parse_entries lines)[q]? = some en' →
      en.end_index ≤ en'.header_index) := by
  obtain ⟨A, B, C⟩ := parseFromF_spec lines lines.length 0 (by omega)
  have key : ∀ (d p : Nat) (en en' : Entry),
      (parse_entries lines)[p]? = some en →
      (parse_entries lines)[p + d + 1]? = some en' →
      en.end_index ≤ en'.header_index := by
    intro d
    induction d with
    | zero =>
      intro p en en' h h'
      exact Nat.le_of_eq (B p en en' h h')
    | succ d' ihd =>
      intro p en en' h h'
      have hq : p + (d' + 1) + 1 < (parse_entries lines).length := by
        obtain ⟨hlt, -⟩ := List.getElem?_eq_some.mp h'
        exact hlt
      have hlt1 : p + 1 < (parse_entries lines).length := by omega
      obtain ⟨mid, hmid⟩ : ∃ mid, (parse_entries lines)[p+1]? = some mid :=
        ⟨(parse_entries lines)[p+1], List.getElem?_eq_getElem hlt1⟩
      have h1 : en.end_index = mid.header_index := B p en mid h hmid
      have h2 : mid.header_index < mid.end_index := (A (p+1) mid hmid).2.1
      have h3 : mid.end_index ≤ en'.header_index := by
        refine ihd (p+1) mid en' hmid ?_
        have heq : p + 1 + d' + 1 = p + (d' + 1) + 1 := by omega
        rw [heq]
        exact h'
      omega
  refine ⟨?_, B, C, ?_⟩
  · intro p en h
    obtain ⟨-, a2, a3, a4, -⟩ := A p en h
    exact ⟨a2, a3, a4⟩
  · intro p q en en' hpq h h'
    have heq : q = p + (q - p - 1) + 1 := by omega
    rw [heq] at h'
    exact key (q - p - 1) p en en' h h'

/-- Witness for C5: on the two concrete records the spans chain exactly and
each span is nonempty. -/
theorem parse_entries_spans_witness :
    (parse_entries exLines2)[0]? = some exEnt20 ∧
    (parse_entries exLines2)[1]? = some exEnt21 ∧
    exEnt20.end_index = exEnt21.header_index ∧
    exEnt20.header_index < exEnt20.end_index :=
  ⟨by decide, by decide,
   (parse_entries_spans exLines2).2.1 0 exEnt20 exEnt21 (by decide) (by decide),
   ((parse_entries_spans exLines2).1 0 exEnt20 (by decide)).1⟩

/-- Reading the fingerprint attribute. -/
theorem Fields.get_fingerprint (f : Fields) : f.get (str "fingerprint") = f.fingerprint := by
  simp only [Fields.get]
  rw [if_true]

/-- Reading the source attribute. -/
theorem Fields.get_source (f : Fields) : f.get (str "source") = f.source := by
  simp only [Fields.get]
  rw [if_neg (by decide), if_true]

/-- Reading the status attribute. -/
theorem Fields.get_status (f : Fields) : f.get (str "status") = f.status := by
  simp only [Fields.get]
  rw [if_neg (by decide), if_neg (by decide), if_true]

/-- Reading the details attribute. -/
theorem Fields.get_details (f : Fields) : f.get (str "details") = f.details := by
  simp only [Fields.get]
  rw [if_neg (by decide), if_neg (by decide), if_neg (by decide), if_true]

/-- Reading the reviewNote attribute. -/
theorem Fields.get_reviewNote (f : Fields) : f.get (str "reviewNote") = f.review_note := by
  simp only [Fields.get]
  rw [if_neg (by decide), if_neg (by decide), if_neg (by decide), if_neg (by decide),
    if_true]

/-- Reading the fingerprint attribute of a record. -/
theorem entryField_fingerprint (en : Entry) : entryField en (str "fingerprint") = en.fingerprint := by
  simp only [entryField]
  rw [if_true]

/-- Reading the source attribute of a record. -/
theorem entryField_source (en : Entry) : entryField en (str "source") = en.source := by
  simp only [entryField]
  rw [if_neg (by decide), if_true]

/-- Reading the status attribute of a record. -/
theorem entryField_status (en : Entry) : entryField en (str "status") = en.status := by
  simp only [entryField]
  rw [if_neg (by decide), if_neg (by decide), if_true]

/-- Reading the details attribute of a record. -/
theorem entryField_details (en : Entry) : entryField en (str "details") = en.details := by
  simp only [entryField]
  rw [if_neg (by decide), if_neg (by decide), if_neg (by decide), if_true]

/-- Reading the reviewNote attribute of a record. -/
theorem entryField_reviewNote (en : Entry) : entryField en (str "reviewNote") = en.review_note := by
  simp only [entryField]
  rw [if_neg (by decide), if_neg (by decide), if_neg (by decide), if_neg (by decide),
    if_true]

/-- One scanning step, seen at the fingerprint attribute. -/
theorem applyKv_fingerprint (acc : Fields) (line : List Char) :
    (applyKv acc line).fingerprint = (kvFor (str "fingerprint") line).or acc.fingerprint := by
  cases hkv : kvMatch line with
  | none => simp [applyKv, kvFor, hkv]
  | some kv =>
    obtain ⟨k, v⟩ := kv
    simp only [applyKv, kvFor, hkv]
    by_cases h1 : k = str "fingerprint"
    · simp only [if_pos h1]
      simp
    · by_cases h2 : k = str "source"
      · simp only [if_neg h1, if_pos h2, if_neg h1]
        simp
      · by_cases h3 : k = str "status"
        · simp only [if_neg h1, if_neg h2, if_pos h3, if_neg h1]
          simp
        · by_cases h4 : k = str "details"
          · simp only [if_neg h1, if_neg h2, if_neg h3, if_pos h4, if_neg h1]
            simp
          · by_cases h5 : k = str "reviewNote"
            · simp only [if_neg h1, if_neg h2, if_neg h3, if_neg h4, if_pos h5, if_neg h1]
              simp
            · simp only [if_neg h1, if_neg h2, if_neg h3, if_neg h4, if_neg h5]
              simp

/-- One scanning step, seen at the source attribute. -/
theorem applyKv_source (acc : Fields) (line : List Char) :
    (applyKv acc line).source = (kvFor (str "source") line).or acc.source := by
  cases hkv : kvMatch line with
  | none => simp [applyKv, kvFor, hkv]
  | some kv =>
    obtain ⟨k, v⟩ := kv
    simp only [applyKv, kvFor, hkv]
    by_cases h1 : k = str "fingerprint"
    · simp only [if_pos h1, if_neg (by rw [h1]; decide : ¬(k = str "source"))]
      simp
    · by_cases h2 : k = str "source"
      · simp only [if_neg h1, if_pos h2]
        simp
      · by_cases h3 : k = str "status"
        · simp only [if_neg h1, if_neg h2, if_pos h3, if_neg h2]
          simp
        · by_cases h4 : k = str "details"
          · simp only [if_neg h1, if_neg h2, if_neg h3, if_pos h4, if_neg h2]
            simp
          · by_cases h5 : k = str "reviewNote"
            · simp only [if_neg h1, if_neg h2, if_neg h3, if_neg h4, if_pos h5, if_neg h2]
              simp
            · simp only [if_neg h1, if_neg h2, if_neg h3, if_neg h4, if_neg h5]
              simp

/-- One scanning step, seen at the status attribute. -/
theorem applyKv_status (acc : Fields) (line : List Char) :
    (applyKv acc line).status = (kvFor (str "status") line).or acc.status := by
  cases hkv : kvMatch line with
  | none => simp [applyKv, kvFor, hkv]
  | some kv =>
    obtain ⟨k, v⟩ := kv
    simp only [applyKv, kvFor, hkv]
    by_cases h1 : k = str "fingerprint"
    · simp only [if_pos h1, if_neg (by rw [h1]; decide : ¬(k = str "status"))]
      simp
    · by_cases h2 : k = str "source"
      · simp only [if_neg h1, if_pos h2, if_neg (by rw [h2]; decide : ¬(k = str "status"))]
        simp
      · by_cases h3 : k = str "status"
        · simp only [if_neg h1, if_neg h2, if_pos h3]
          simp
        · by_cases h4 : k = str "details"
          · simp only [if_neg h1, if_neg h2, if_neg h3, if_pos h4, if_neg h3]
            simp
          · by_cases h5 : k = str "reviewNote"
            · simp only [if_neg h1, if_neg h2, if_neg h3, if_neg h4, if_pos h5, if_neg h3]
              simp
            · simp only [if_neg h1, if_neg h2, if_neg h3, if_neg h4, if_neg h5]
              simp

/-- One scanning step, seen at the details attribute. -/
theorem applyKv_details (acc : Fields) (line : List Char) :
    (applyKv acc line).details = (kvFor (str "details") line).or acc.details := by
  cases hkv : kvMatch line with
  | none => simp [applyKv, kvFor, hkv]
  | some kv =>
    obtain ⟨k, v⟩ := kv
    simp only [applyKv, kvFor, hkv]
    by_cases h1 : k = str "fingerprint"
    · simp only [if_pos h1, if_neg (by rw [h1]; decide : ¬(k = str "details"))]
      simp
    · by_cases h2 : k = str "source"
      · simp only [if_neg h1, if_pos h2, if_neg (by rw [h2]; decide : ¬(k = str "details"))]
        simp
      · by_cases h3 : k = str "status"
        · simp only [if_neg h1, if_neg h2, if_pos h3, if_neg (by rw [h3]; decide : ¬(k = str "details"))]
          simp
        · by_cases h4 : k = str "details"
          · simp only [if_neg h1, if_neg h2, if_neg h3, if_pos h4]
            simp
          · by_cases h5 : k = str "reviewNote"
            · simp only [if_neg h1, if_neg h2, if_neg h3, if_neg h4, if_pos h5, if_neg h4]
              simp
            · simp only [if_neg h1, if_neg h2, if_neg h3, if_neg h4, if_neg h5]
              simp

/-- One scanning step, seen at the reviewNote attribute. -/
theorem applyKv_reviewNote (acc : Fields) (line : List Char) :
    (applyKv acc line).review_note = (kvFor (str "reviewNote") line).or acc.review_note := by
  cases hkv : kvMatch line with
  | none => simp [applyKv, kvFor, hkv]
  | some kv =>
    obtain ⟨k, v⟩ := kv
    simp only [applyKv, kvFor, hkv]
    by_cases h1 : k = str "fingerprint"
    · simp only [if_pos h1, if_neg (by rw [h1]; decide : ¬(k = str "reviewNote"))]
      simp
    · by_cases h2 : k = str "source"
      · simp only [if_neg h1, if_pos h2, if_neg (by rw [h2]; decide : ¬(k = str "reviewNote"))]
        simp
      · by_cases h3 : k = str "status"
        · simp only [if_neg h1, if_neg h2, if_pos h3, if_neg (by rw [h3]; decide : ¬(k = str "reviewNote"))]
          simp
        · by_cases h4 : k = str "details"
          · simp only [if_neg h1, if_neg h2, if_neg h3, if_pos h4, if_neg (by rw [h4]; decide : ¬(k = str "reviewNote"))]
            simp
          · by_cases h5 : k = str "reviewNote"
            · simp only [if_neg h1, if_neg h2, if_neg h3, if_neg h4, if_pos h5]
              simp
            · simp only [if_neg h1, if_neg h2, if_neg h3, if_neg h4, if_neg h5]
              simp

/-- The scan's result at a recognised key is the value of the last matching
field line of the range, falling back to the accumulator. -/
theorem scanFieldsF_get (lines : List (List Char)) (key : List Char)
    (hkey : key ∈ recognizedKeys) :
    ∀ (n i : Nat) (acc : Fields),
      Fields.get (scanFieldsF lines n i acc) key =
        (lastKvF lines key n i).or (Fields.get acc key) := by
  have happly : ∀ (acc : Fields) (line : List Char),
      Fields.get (applyKv acc line) key = (kvFor key line).or (Fields.get acc key) := by
    intro acc line
    simp only [recognizedKeys, List.mem_cons, List.not_mem_nil, or_false] at hkey
    rcases hkey with rfl | rfl | rfl | rfl | rfl
    · rw [Fields.get_fingerprint, Fields.get_fingerprint, applyKv_fingerprint]
    · rw [Fields.get_source, Fields.get_source, applyKv_source]
    · rw [Fields.get_status, Fields.get_status, applyKv_status]
    · rw [Fields.get_details, Fields.get_details, applyKv_details]
    · rw [Fields.get_reviewNote, Fields.get_reviewNote, applyKv_reviewNote]
  intro n
  induction n with
  | zero =>
    intro i acc
    simp [scanFieldsF, lastKvF]
  | succ m ih =>
    intro i acc
    rw [show scanFieldsF lines (m+1) i acc =
      scanFieldsF lines m (i+1) (applyKv acc (getLineD lines i)) from rfl]
    rw [ih (i+1) (applyKv acc (getLineD lines i)), happly]
    rw [show lastKvF lines key (m+1) i =
      (lastKvF lines key m (i+1)).or (kvFor key (getLineD lines i)) from rfl]
    rw [Option.or_assoc]

/-- The attribute of a parsed record at a recognised key is the value of
the last matching field line of its span. -/
theorem entryField_mkEntry (lines : List (List Char)) (h j : Nat) (key : List Char)
    (hkey : key ∈ recognizedKeys) :
    entryField (mkEntry lines h j) key = lastKvIn lines (h+1) j key := by
  have hbase : Fields.get Fields.empty key = none := by
    simp only [recognizedKeys, List.mem_cons, List.not_mem_nil, or_false] at hkey
    rcases hkey with rfl | rfl | rfl | rfl | rfl
    · rw [Fields.get_fingerprint]; rfl
    · rw [Fields.get_source]; rfl
    · rw [Fields.get_status]; rfl
    · rw [Fields.get_details]; rfl
    · rw [Fields.get_reviewNote]; rfl
  have hmk : entryField (mkEntry lines h j) key = Fields.get (scanFields lines (h+1) j) key := by
    simp only [recognizedKeys, List.mem_cons, List.not_mem_nil, or_false] at hkey
    rcases hkey with rfl | rfl | rfl | rfl | rfl
    · rw [entryField_fingerprint, Fields.get_fingerprint]; rfl
    · rw [entryField_source, Fields.get_source]; rfl
    · rw [entryField_status, Fields.get_status]; rfl
    · rw [entryField_details, Fields.get_details]; rfl
    · rw [entryField_reviewNote, Fields.get_reviewNote]; rfl
  rw [hmk, show scanFields lines (h+1) j = scanFieldsF lines (j - (h+1)) (h+1) Fields.empty from rfl,
    scanFieldsF_get lines key hkey, hbase]
  rw [show lastKvIn lines (h+1) j key = lastKvF lines key (j - (h+1)) (h+1) from rfl]
  exact Option.or_none

/-- Reading outside a replaced index is unchanged. -/
theorem getLineD_set_ne (lines : List (List Char)) (f k : Nat) (nl : List Char)
    (h : k ≠ f) : getLineD (lines.set f nl) k = getLineD lines k := by
  simp only [getLineD, List.getD_eq_getElem?_getD]
  rw [List.getElem?_set_ne (Ne.symm h)]

/-- The header scan only looks at header positions, so it is stable under
any rewrite that preserves which lines are headers. -/
theorem findNextHeaderF_stab (lines lines' : List (List Char))
    (hlen : lines'.length = lines.length)
    (hhead : ∀ k, isHeaderB (getLineD lines' k) = isHeaderB (getLineD lines k)) :
    ∀ (n i : Nat), findNextHeaderF lines' n i = findNextHeaderF lines n i := by
  intro n
  induction n with
  | zero => intro i; rfl
  | succ m ih =>
    intro i
    simp only [findNextHeaderF, hlen, hhead i]
    by_cases hi : i < lines.length
    · rw [if_pos hi, if_pos hi]
      cases hh : isHeaderB (getLineD lines i) with
      | true => rfl
      | false => exact ih (i+1)
    · rw [if_neg hi, if_neg hi]

/-- The parser is stable under any rewrite that preserves which lines are
headers: the same spans come back, with fields re-scanned on the new
lines. -/
theorem parseFromF_stab (lines lines' : List (List Char))
    (hlen : lines'.length = lines.length)
    (hhead : ∀ k, isHeaderB (getLineD lines' k) = isHeaderB (getLineD lines k)) :
    ∀ (fuel i : Nat),
      parseFromF lines' fuel i =
        (parseFromF lines fuel i).map
          (fun en => mkEntry lines' en.header_index en.end_index) := by
  intro fuel
  induction fuel with
  | zero => intro i; rfl
  | succ m ih =>
    intro i
    have hfind : findNextHeader lines' (i+1) = findNextHeader lines (i+1) := by
      rw [show findNextHeader lines' (i+1) = findNextHeaderF lines' (lines'.length - (i+1)) (i+1) from rfl,
        hlen, findNextHeaderF_stab lines lines' hlen hhead]
      rfl
    by_cases hi : i < lines.length
    · cases hh : isHeaderB (getLineD lines i) with
      | true =>
        have heq : parseFromF lines (m+1) i =
            mkEntry lines i (findNextHeader lines (i+1)) ::
              parseFromF lines m (findNextHeader lines (i+1)) := by
          simp only [parseFromF]
          rw [if_pos hi, if_pos hh]
        have heq' : parseFromF lines' (m+1) i =
            mkEntry lines' i (findNextHeader lines' (i+1)) ::
              parseFromF lines' m (findNextHeader lines' (i+1)) := by
          simp only [parseFromF]
          rw [if_pos (by omega : i < lines'.length), if_pos (by rw [hhead i]; exact hh)]
        rw [heq, heq', List.map_cons, hfind, ih (findNextHeader lines (i+1))]
        rfl
      | false =>
        have heq : parseFromF lines (m+1) i = parseFromF lines m (i+1) := by
          simp only [parseFromF]
          rw [if_pos hi, if_neg (by rw [hh]; exact Bool.false_ne_true)]
        have heq' : parseFromF lines' (m+1) i = parseFromF lines' m (i+1) := by
          simp only [parseFromF]
          rw [if_pos (by omega : i < lines'.length),
            if_neg (by rw [hhead i, hh]; exact Bool.false_ne_true)]
        rw [heq, heq', ih (i+1)]
    · rw [parseFromF_nil_of_ge lines (m+1) i (by omega),
        parseFromF_nil_of_ge lines' (m+1) i (by omega)]
      rfl

/-- The last-match scan only reads lines of its range. -/
theorem lastKvF_congr (lines lines' : List (List Char)) (key : List Char) :
    ∀ (n i : Nat), (∀ k, i ≤ k → k < i + n → getLineD lines' k = getLineD lines k) →
      lastKvF lines' key n i = lastKvF lines key n i := by
  intro n
  induction n with
  | zero => intro i _; rfl
  | succ m ih =>
    intro i hpt
    rw [show lastKvF lines' key (m+1) i =
        (lastKvF lines' key m (i+1)).or (kvFor key (getLineD lines' i)) from rfl,
      show lastKvF lines key (m+1) i =
        (lastKvF lines key m (i+1)).or (kvFor key (getLineD lines i)) from rfl,
      ih (i+1) (fun k h1 h2 => hpt k (by omega) (by omega)),
      hpt i (Nat.le_refl i) (by omega)]

/-- A matching field line inside the scanned range forces the last-match
scan to return a value. -/
theorem lastKvF_isSome (lines : List (List Char)) (key : List Char) :
    ∀ (n i k : Nat), i ≤ k → k < i + n →
      (kvFor key (getLineD lines k)).isSome = true →
      (lastKvF lines key n i).isSome = true := by
  intro n
  induction n with
  | zero => intro i k h1 h2 _; omega
  | succ m ih =>
    intro i k h1 h2 hkv
    rw [show lastKvF lines key (m+1) i =
        (lastKvF lines key m (i+1)).or (kvFor key (getLineD lines i)) from rfl]
    rcases Nat.eq_or_lt_of_le h1 with rfl | hk
    · simp [Option.isSome_or, hkv]
    · have := ih (i+1) k hk (by omega) hkv
      simp [Option.isSome_or, this]

/-- Replacing a line strictly before a surviving matching field line does
not change the last-match scan. -/
theorem lastKvF_set_stab (lines : List (List Char)) (f : Nat) (nl key : List Char) :
    ∀ (n i k0 : Nat), i ≤ k0 → k0 < i + n → f < k0 →
      (kvFor key (getLineD lines k0)).isSome = true →
      lastKvF (lines.set f nl) key n i = lastKvF lines key n i := by
  intro n
  induction n with
  | zero => intro i k0 h1 h2 _ _; omega
  | succ m ih =>
    intro i k0 h1 h2 hf hkv
    rw [show lastKvF (lines.set f nl) key (m+1) i =
        (lastKvF (lines.set f nl) key m (i+1)).or (kvFor key (getLineD (lines.set f nl) i)) from rfl,
      show lastKvF lines key (m+1) i =
        (lastKvF lines key m (i+1)).or (kvFor key (getLineD lines i)) from rfl]
    rcases Nat.eq_or_lt_of_le h1 with rfl | hk
    · have htail : lastKvF (lines.set f nl) key m (i+1) = lastKvF lines key m (i+1) :=
        lastKvF_congr lines (lines.set f nl) key m (i+1)
          (fun k hk1 _ => getLineD_set_ne lines f k nl (by omega))
      rw [htail, getLineD_set_ne lines f i nl (by omega)]
    · have htail : lastKvF (lines.set f nl) key m (i+1) = lastKvF lines key m (i+1) :=
        ih (i+1) k0 hk (by omega) hf hkv
      rw [htail]
      have hsome : (lastKvF lines key m (i+1)).isSome = true :=
        lastKvF_isSome lines key m (i+1) k0 hk (by omega) hkv
      obtain ⟨w, hw⟩ := Option.isSome_iff_exists.mp hsome
      rw [hw]
      rfl

/-- A line that starts with a space is never a header line. -/
theorem isHeaderB_space (rest : List Char) : isHeaderB (' ' :: rest) = false := rfl

/-- A line that starts with a field prefix is never a header line. -/
theorem isHeaderB_of_kvPrefix (key l : List Char)
    (h : hasPrefixB (kvTarget key) l = true) : isHeaderB l = false := by
  obtain ⟨t, ht⟩ := List.isPrefixOf_iff_prefix.mp h
  rw [← ht,
    show kvTarget key ++ t = ' ' :: ' ' :: '-' :: ' ' :: ((key ++ str ": ") ++ t) from rfl]
  exact isHeaderB_space _

/-- A field line carrying `key` starts with the prefix
`"  - <key>: "` that `update_or_insert_kv` scans for. -/
theorem kvMatch_prefix (line key v : List Char) (h : kvMatch line = some (key, v)) :
    hasPrefixB (kvTarget key) line = true := by
  unfold kvMatch at h
  split at h
  next rest =>
    split at h
    next rest2 heq2 =>
      split at h
      next title heqD =>
        by_cases hke : (List.takeWhile isWordChar rest).isEmpty = true
        · simp only [hke, if_true] at h
          exact absurd h (by simp)
        · simp only [if_neg hke] at h
          rw [Option.some.injEq, Prod.mk.injEq] at h
          obtain ⟨hk, -⟩ := h
          apply List.isPrefixOf_iff_prefix.mpr
          refine ⟨rest2, ?_⟩
          rw [show kvTarget key ++ rest2 =
            ' ' :: ' ' :: '-' :: ' ' :: ((key ++ str ": ") ++ rest2) from rfl,
            List.append_assoc,
            show str ": " ++ rest2 = ':' :: ' ' :: rest2 from rfl]
          rw [← hk, ← heq2]
          rw [List.takeWhile_append_dropWhile]
      next heqD =>
        by_cases hke : (List.takeWhile isWordChar rest).isEmpty = true
        · simp only [hke, if_true] at h
          exact absurd h (by simp)
        · simp only [if_neg hke] at h
          exact absurd h (by simp)
    next => simp at h
  next => simp at h

/-- A field value for `key` comes from a field line carrying exactly that
key. -/
theorem kvFor_inv (key l v : List Char) (h : kvFor key l = some v) :
    kvMatch l = some (key, v) := by
  cases hm : kvMatch l with
  | none =>
    simp only [kvFor, hm] at h
    cases h
  | some kv =>
    obtain ⟨k, w⟩ := kv
    simp only [kvFor, hm] at h
    by_cases hk : k = key
    · rw [if_pos hk] at h
      cases h
      rw [hk]
    · rw [if_neg hk] at h
      cases h

/-- C10: on a record whose span holds two field lines with the same
recognised key, `update_or_insert_kv` rewrites only the first
prefix-matching line (at an index at or before the earlier duplicate), and
re-parsing the updated document yields, at that key, the value of the last
duplicate — an untouched original line — so the freshly written value is
not read back whenever the last duplicate's value differs from it. -/
theorem duplicate_key_get_after_set
    (lines : List (List Char)) (p : Nat) (key v : List Char) (en : Entry) (i1 i2 : Nat)
    (hkey : key ∈ recognizedKeys)
    (hen : (parse_entries lines)[p]? = some en)
    (h1lo : en.header_index < i1) (h12 : i1 < i2) (h2hi : i2 < en.end_index)
    (hkv1 : (kvFor key (getLineD lines i1)).isSome = true)
    (hkv2 : (kvFor key (getLineD lines i2)).isSome = true) :
    ∃ f, en.header_index < f ∧ f ≤ i1 ∧
      update_or_insert_kv lines en key v = lines.set f (kvTarget key ++ v) ∧
      ∃ en', (parse_entries (update_or_insert_kv lines en key v))[p]? = some en' ∧
        en'.header_index = en.header_index ∧ en'.end_index = en.end_index ∧
        entryField en' key = lastKvIn lines (en.header_index + 1) en.end_index key ∧
        (lastKvIn lines (en.header_index + 1) en.end_index key).isSome = true ∧
        (lastKvIn lines (en.header_index + 1) en.end_index key ≠ some v →
          entryField en' key ≠ some v) := by
  obtain ⟨v1, hv1⟩ := Option.isSome_iff_exists.mp hkv1
  have hpre1 : hasPrefixB (kvTarget key) (getLineD lines i1) = true :=
    kvMatch_prefix _ key v1 (kvFor_inv key _ v1 hv1)
  have hsome : (findKvIndex lines (kvTarget key) (en.header_index + 1) en.end_index).isSome = true :=
    (findKvF_spec lines (kvTarget key) (en.end_index - (en.header_index + 1))
      (en.header_index + 1)).2 ⟨i1, by omega, by omega, hpre1⟩
  obtain ⟨f, hf⟩ := Option.isSome_iff_exists.mp hsome
  obtain ⟨hf1, hf2, hf3, hf4⟩ :=
    (findKvF_spec lines (kvTarget key) (en.end_index - (en.header_index + 1))
      (en.header_index + 1)).1 f hf
  have hfi1 : f ≤ i1 := by
    rcases Nat.lt_or_ge i1 f with h | h
    · rw [hf4 i1 (by omega) h] at hpre1
      exact absurd hpre1 Bool.false_ne_true
    · exact h
  have heq : update_or_insert_kv lines en key v = lines.set f (kvTarget key ++ v) := by
    simp only [update_or_insert_kv]
    rw [hf]
  have hflen : f < lines.length := lt_length_of_kvTarget_prefix lines key f hf3
  have hlen : (lines.set f (kvTarget key ++ v)).length = lines.length :=
    List.length_set lines f _
  have hhead : ∀ k, isHeaderB (getLineD (lines.set f (kvTarget key ++ v)) k) =
      isHeaderB (getLineD lines k) := by
    intro k
    by_cases hkf : k = f
    · subst hkf
      have hnew : getLineD (lines.set k (kvTarget key ++ v)) k = kvTarget key ++ v := by
        simp only [getLineD, List.getD_eq_getElem?_getD]
        rw [List.getElem?_set_self hflen]
        rfl
      rw [hnew,
        isHeaderB_of_kvPrefix key _
          (List.isPrefixOf_iff_prefix.mpr (List.prefix_append _ _)),
        isHeaderB_of_kvPrefix key _ hf3]
    · rw [getLineD_set_ne lines f k _ hkf]
  have hparse : parse_entries (lines.set f (kvTarget key ++ v)) =
      (parse_entries lines).map
        (fun e => mkEntry (lines.set f (kvTarget key ++ v)) e.header_index e.end_index) := by
    show parseFromF (lines.set f (kvTarget key ++ v)) (lines.set f (kvTarget key ++ v)).length 0 = _
    rw [hlen]
    exact parseFromF_stab lines (lines.set f (kvTarget key ++ v)) hlen hhead lines.length 0
  have hfield :
      entryField (mkEntry (lines.set f (kvTarget key ++ v)) en.header_index en.end_index) key =
        lastKvIn lines (en.header_index + 1) en.end_index key := by
    rw [entryField_mkEntry _ _ _ key hkey]
    exact lastKvF_set_stab lines f (kvTarget key ++ v) key
      (en.end_index - (en.header_index + 1)) (en.header_index + 1) i2
      (by omega) (by omega) (by omega) hkv2
  refine ⟨f, by omega, hfi1, heq,
    mkEntry (lines.set f (kvTarget key ++ v)) en.header_index en.end_index, ?_, rfl, rfl,
    hfield, ?_, ?_⟩
  · rw [heq, hparse, List.getElem?_map, hen]
    rfl
  · exact lastKvF_isSome lines key (en.end_index - (en.header_index + 1))
      (en.header_index + 1) i2 (by omega) (by omega) hkv2
  · intro hne hcontra
    rw [hfield] at hcontra
    exact hne hcontra

/-- Witness for C10: writing status `c` into the record replaces the first
duplicate line, and the re-parsed status is still `b` — the later untouched
duplicate — not `c`. -/
theorem duplicate_key_get_after_set_witness :
    ∃ f, exDupEnt.header_index < f ∧ f ≤ 1 ∧
      update_or_insert_kv exDup exDupEnt (str "status") (str "c") =
        exDup.set f (kvTarget (str "status") ++ str "c") ∧
      ∃ en', (parse_entries (update_or_insert_kv exDup exDupEnt (str "status") (str "c")))[0]? =
          some en' ∧
        en'.header_index = exDupEnt.header_index ∧ en'.end_index = exDupEnt.end_index ∧
        entryField en' (str "status") =
          lastKvIn exDup (exDupEnt.header_index + 1) exDupEnt.end_index (str "status") ∧
        (lastKvIn exDup (exDupEnt.header_index + 1) exDupEnt.end_index (str "status")).isSome = true ∧
        (lastKvIn exDup (exDupEnt.header_index + 1) exDupEnt.end_index (str "status") ≠
            some (str "c") →
          entryField en' (str "status") ≠ some (str "c")) :=
  duplicate_key_get_after_set exDup 0 (str "status") (str "c") exDupEnt 1 2
    (by decide) (by decide) (by decide) (by decide) (by decide) (by decide) (by decide)
